import Mathlib

/-!
# AthletiTrack — verification of the statistics-entry workflow

A shallow embedding of the role-scoped statistics entry workflow of the
AthletiTrack repository (`athletes/views.py`, `events/forms.py`), together
with proofs of the specified properties.

The relational rows (`Statistic`, `PerformanceStat`) are embedded as Lean
structures, the database as lists of rows plus a fresh-id counter, and the
Django ORM calls used by `manage_athlete_stats` (`get_or_create`,
`update_or_create`, `filter`) as pure functions on that state.
-/

namespace AthletiTrack

/-- A row of `core.models.Statistic`: `name` is the display name, `short_name`
the form-field key, `sport` the owning sport's primary key (`none` for a
universal statistic, as in `sport=None` in the view code). -/
structure Statistic where
  id : Nat
  name : String
  short_name : String
  sport : Option Nat
  deriving DecidableEq, Repr

/-- A row of `athletes.models.PerformanceStat`: one value per
(athlete, statistic, year) triple, referencing the statistic by primary key. -/
structure PerformanceStat where
  athleteId : Nat
  statId : Nat
  year : Int
  value : String
  deriving DecidableEq, Repr

/-- The persisted state the workflow touches: the `Statistic` table, the
`PerformanceStat` table, and the next fresh primary key for `Statistic`
(rows are created in insertion order, as Django's autoincrement pk does). -/
structure DB where
  stats : List Statistic
  perf : List PerformanceStat
  nextStatId : Nat
  deriving DecidableEq, Repr

/-- A team row: `sport` is the pk of the sport the team belongs to
(`Team.sport` is a non-null foreign key in the views). -/
structure Team where
  id : Nat
  sport : Nat
  deriving DecidableEq, Repr

/-- An `athletes.models.Athlete` row as read by the views: its user pk, its
optional team (with that team's sport), and the pk of its assigned coach. -/
structure Athlete where
  id : Nat
  userId : Nat
  team : Option Team
  coachId : Option Nat
  deriving DecidableEq, Repr

/-- `CustomUser.Role` as used by the views (`ADMINISTRATOR`, `COACH`,
`ATHLETE`); `other` stands for any further role value, which every
role-comparison chain in the views lets fall through to the default case. -/
inductive Role where
  | administrator
  | coach
  | athlete
  | other
  deriving DecidableEq, Repr

/-- The requesting user as the views read it: its role, the pk of its `Coach`
profile when `hasattr(request.user, 'coach')` holds, and likewise for its
`Athlete` profile. -/
structure Actor where
  role : Role
  coachId : Option Nat
  athleteId : Option Nat
  deriving DecidableEq, Repr

/-- Does this performance row match the lookup keys of
`PerformanceStat.objects.update_or_create(athlete=…, statistic=…, year=…)`? -/
def matchesTriple (a i : Nat) (y : Int) (r : PerformanceStat) : Bool :=
  r.athleteId == a && r.statId == i && r.year == y

/-- All rows for one (athlete, statistic, year) triple. -/
def recsFor (db : DB) (a i : Nat) (y : Int) : List PerformanceStat :=
  db.perf.filter (matchesTriple a i y)

/-- `PerformanceStat.objects.update_or_create(athlete=a, statistic=i, year=y,
defaults={'value': v})` (views.py:269 and 278): if a row for the triple
exists it is updated in place, otherwise a new row is appended.  Django
fetches the unique matching row and raises on duplicates; inside the
one-row-per-triple invariant (claim C8) this equals rewriting every matching
row, which is how we embed it. -/
def updateOrCreatePerf (db : DB) (a i : Nat) (y : Int) (v : String) : DB :=
  if db.perf.any (matchesTriple a i y) then
    { db with perf := db.perf.map (fun r =>
        if matchesTriple a i y r then { r with value := v } else r) }
  else
    { db with perf := db.perf ++ [⟨a, i, y, v⟩] }

/-- `Statistic.objects.get_or_create(name=label, sport=None,
defaults={'short_name': key})` (views.py:263): looked up by display name and
null sport only; `key` is used solely when a new row is created. -/
def getOrCreateStat (db : DB) (label key : String) : Statistic × DB :=
  match db.stats.find? (fun s => s.name == label && s.sport == none) with
  | some s => (s, db)
  | none =>
    let s : Statistic := ⟨db.nextStatId, label, key, none⟩
    (s, { db with stats := db.stats ++ [s], nextStatId := db.nextStatId + 1 })

/-- One pass of the universal-statistics loop body (views.py:260-272) for the
entry `e = (key, label)`: `value = form.cleaned_data.get(key)`, and on a
truthy value, resolve-or-create the universal statistic and upsert the
performance row.  `v` is the submitted cleaned data (`none` = key absent,
`some ""` = blank; both are falsy in `if value:`). -/
def stepUniversal (a : Nat) (y : Int) (v : String → Option String)
    (db : DB) (e : String × String) : DB :=
  match v e.1 with
  | none => db
  | some s =>
    if s = "" then db
    else
      let p := getOrCreateStat db e.2 e.1
      updateOrCreatePerf p.2 a p.1.id y s

/-- The universal-statistics loop `for key, label in UNIVERSAL_STATISTICS:`
(views.py:260). -/
def applyUniversal (a : Nat) (y : Int) (v : String → Option String) :
    List (String × String) → DB → DB
  | [], db => db
  | e :: rest, db => applyUniversal a y v rest (stepUniversal a y v db e)

/-- One pass of the sport-specific loop body (views.py:275-283) for the
statistic definition `st`: `value = form.cleaned_data.get(st.short_name)`,
and on a truthy value, upsert the performance row for `st`. -/
def stepSpecific (a : Nat) (y : Int) (v : String → Option String)
    (db : DB) (st : Statistic) : DB :=
  match v st.short_name with
  | none => db
  | some s => if s = "" then db else updateOrCreatePerf db a st.id y s

/-- The sport-specific loop `for stat_definition in sport_specific_stats:`
(views.py:275). -/
def applySpecific (a : Nat) (y : Int) (v : String → Option String) :
    List Statistic → DB → DB
  | [], db => db
  | st :: rest, db => applySpecific a y v rest (stepSpecific a y v db st)

/-- `Statistic.objects.filter(sport=athlete_sport)` (views.py:249, and the
same queryset in `GameReportForm.__init__`, events/forms.py:80). -/
def specificFor (db : DB) (sp : Nat) : List Statistic :=
  db.stats.filter (fun st => st.sport == some sp)

/-- The whole upsert body of the valid-POST branch (views.py:259-283): the
universal loop runs first; the lazy `sport_specific_stats` queryset is then
evaluated (at its iteration point) against the resulting state, and the
sport-specific loop runs. -/
def applyAll (univ : List (String × String)) (a sp : Nat) (y : Int)
    (v : String → Option String) (db : DB) : DB :=
  let db1 := applyUniversal a y v univ db
  applySpecific a y v (specificFor db1 sp) db1

/-- `is_their_coach` (views.py:240): the requester has a `Coach` profile and
the athlete's assigned coach is that profile. -/
def isTheirCoach (actor : Actor) (ath : Athlete) : Bool :=
  match actor.coachId with
  | none => false
  | some c => ath.coachId == some c

/-- `is_admin` (views.py:241). -/
def isAdmin (actor : Actor) : Bool :=
  actor.role == Role.administrator

/-- The authorization predicate of `manage_athlete_stats` (views.py:252):
`is_their_coach or is_admin`. -/
def canManage (actor : Actor) (ath : Athlete) : Bool :=
  isTheirCoach actor ath || isAdmin actor

/-- A form field synthesized by the dynamic form: either a free-text
statistic field (`required=False` in events/forms.py:85 and per §4.2 of the
spec) or the year field with its default. -/
inductive Field where
  | stat (key : String) (label : String) (required : Bool)
  | yearField (required : Bool) (default : Int)
  deriving DecidableEq, Repr

/-- Modelled from the spec: `ScorecardForm` is defined in
`athletes/forms.py`, which is not among the sources; per §4.2 it adds, for
each applicable statistic (the fixed universal enumeration followed by the
persisted sport-specific definitions), one optional free-text field keyed by
`short_code`, plus one required `year` field defaulting to the current year
on fresh construction.  The sport-specific part follows the in-source
`GameReportForm.__init__` loop (events/forms.py:78-87), which the spec says
`ScorecardForm` shares. -/
def scorecardFields (univ : List (String × String)) (db : DB) (sp : Nat)
    (currentYear : Int) : List Field :=
  (univ.map (fun e => Field.stat e.1 e.2 false))
    ++ ((specificFor db sp).map (fun st => Field.stat st.short_name st.name false))
    ++ [Field.yearField true currentYear]

/-- The fields `GameReportForm.__init__` adds for a sport
(events/forms.py:78-87): one optional free-text field per sport-specific
statistic, and nothing else. -/
def gameReportFields (db : DB) (sp : Nat) : List Field :=
  (specificFor db sp).map (fun st => Field.stat st.short_name st.name false)

/-- The request as `manage_athlete_stats` dispatches on it: a GET, or a POST
whose `ScorecardForm` validated to a year and a cleaned-data mapping. -/
inductive Req where
  | get
  | post (year : Int) (values : String → Option String)

/-- The observable outcome of `manage_athlete_stats`: the two error branches
(each a `messages.error` plus a redirect to `athlete-detail`), the rendered
form on GET, and the success branch (a `messages.success` plus a redirect to
`athlete-detail`). -/
inductive Response where
  | errorNoTeam
  | errorNotAuthorized
  | renderForm (fields : List Field)
  | successStats

/-- `manage_athlete_stats` (views.py:237-299) on an athlete that was found:
the missing-team check runs first (views.py:243), then the authorization
check (views.py:252), then the POST upsert or the GET render.  `currentYear`
is `datetime.date.today().year` at request time. -/
def manageStats (univ : List (String × String)) (actor : Actor)
    (ath : Athlete) (db : DB) (req : Req) (currentYear : Int) :
    Response × DB :=
  match ath.team with
  | none => (Response.errorNoTeam, db)
  | some team =>
    if canManage actor ath then
      match req with
      | Req.get => (Response.renderForm (scorecardFields univ db team.sport currentYear), db)
      | Req.post y v => (Response.successStats, applyAll univ ath.id team.sport y v db)
    else
      (Response.errorNotAuthorized, db)

/-! ## Invariants of the persisted state -/

/-- Statistic primary keys are pairwise distinct. -/
def NodupIds (db : DB) : Prop := (db.stats.map Statistic.id).Nodup

/-- Every statistic primary key is below the fresh-id counter. -/
def IdsBounded (db : DB) : Prop := ∀ st ∈ db.stats, st.id < db.nextStatId

/-- Well-formedness of the `Statistic` table, as any relational store with an
autoincrement primary key guarantees. -/
def WF (db : DB) : Prop := NodupIds db ∧ IdsBounded db

/-- At most one `PerformanceStat` row per (athlete, statistic, year) triple —
the invariant of §3 of the spec, stated over the rows present so that it is
decidable on concrete states. -/
def AtMostOne (db : DB) : Prop :=
  ∀ r ∈ db.perf, (recsFor db r.athleteId r.statId r.year).length ≤ 1

/-- The universal-statistic rows carrying a given display name (the lookup
set of `get_or_create(name=label, sport=None)`). -/
def ustatsFor (db : DB) (label : String) : List Statistic :=
  db.stats.filter (fun s => s.name == label && s.sport == none)

/-- At most one universal `Statistic` row per display name (Django's
`get_or_create` raises otherwise; `get_or_create` itself keeps this true). -/
def UStatUnique (db : DB) : Prop :=
  ∀ st ∈ db.stats, st.sport = none → (ustatsFor db st.name).length ≤ 1

/-- `db'` extends `db` by appending only universal statistics with fresh
primary keys; no existing `Statistic` row is modified or removed. -/
def StatsExtend (db db' : DB) : Prop :=
  db.nextStatId ≤ db'.nextStatId ∧
  ∃ cs, db'.stats = db.stats ++ cs ∧ ∀ c ∈ cs, c.sport = none ∧ db.nextStatId ≤ c.id

/-- The state already reflects every nonblank universal entry of `es`: the
universal statistic exists and its (athlete, statistic, year) row holds
exactly the submitted value. -/
def UnivDone (a : Nat) (y : Int) (v : String → Option String)
    (es : List (String × String)) (db : DB) : Prop :=
  ∀ e ∈ es, ∀ s, v e.1 = some s → s ≠ "" →
    ∃ st ∈ db.stats, st.sport = none ∧ st.name = e.2 ∧
      recsFor db a st.id y = [⟨a, st.id, y, s⟩]

/-- The state already reflects every nonblank sport-specific entry of `sts`. -/
def SpecDone (a : Nat) (y : Int) (v : String → Option String)
    (sts : List Statistic) (db : DB) : Prop :=
  ∀ st ∈ sts, ∀ s, v st.short_name = some s → s ≠ "" →
    recsFor db a st.id y = [⟨a, st.id, y, s⟩]

/-- A blank cleaned-data value: the field is absent (`None`) or the empty
string; both are falsy in the view's `if value:` guard. -/
def blankVal (o : Option String) : Prop := o = none ∨ o = some ""

instance (db : DB) : Decidable (NodupIds db) := by
  unfold NodupIds
  infer_instance

instance (db : DB) : Decidable (IdsBounded db) := by
  unfold IdsBounded
  infer_instance

instance (db : DB) : Decidable (WF db) := by
  unfold WF
  infer_instance

instance (db : DB) : Decidable (AtMostOne db) := by
  unfold AtMostOne
  infer_instance

instance (db : DB) : Decidable (UStatUnique db) := by
  unfold UStatUnique
  infer_instance

instance (o : Option String) : Decidable (blankVal o) := by
  unfold blankVal
  infer_instance

/-- The form-field key a synthesized field answers to (`None` for the year
field, which is keyed `year`, not by a statistic short code). -/
def fieldKey : Field → Option String
  | Field.stat k _ _ => some k
  | Field.yearField _ _ => none

/-- Is this the year field? -/
def isYear : Field → Bool
  | Field.stat _ _ _ => false
  | Field.yearField _ _ => true

/-! ## Fault model for the upsert sequence

`manage_athlete_stats` runs its two upsert loops outside any
`transaction.atomic()` block (unlike `bulk_add_by_team_view`, views.py:180,
which wraps its writes), so under Django's default autocommit every ORM
write that completed before a storage error — `Statistic` creations
included — stays committed when the error propagates out of the view.  The
fallible variants below number the `PerformanceStat` writes in execution
order; the write numbered `failAt` raises, aborting the remaining loop
iterations and keeping everything already written. -/

def applyUniversalF (failAt : Option Nat) (a : Nat) (y : Int)
    (v : String → Option String) :
    List (String × String) → DB → Nat → DB × Nat × Bool
  | [], db, cnt => (db, cnt, true)
  | e :: rest, db, cnt =>
    match v e.1 with
    | none => applyUniversalF failAt a y v rest db cnt
    | some s =>
      if s = "" then applyUniversalF failAt a y v rest db cnt
      else
        let p := getOrCreateStat db e.2 e.1
        if failAt = some cnt then (p.2, cnt, false)
        else applyUniversalF failAt a y v rest (updateOrCreatePerf p.2 a p.1.id y s) (cnt + 1)

def applySpecificF (failAt : Option Nat) (a : Nat) (y : Int)
    (v : String → Option String) :
    List Statistic → DB → Nat → DB × Nat × Bool
  | [], db, cnt => (db, cnt, true)
  | st :: rest, db, cnt =>
    match v st.short_name with
    | none => applySpecificF failAt a y v rest db cnt
    | some s =>
      if s = "" then applySpecificF failAt a y v rest db cnt
      else if failAt = some cnt then (db, cnt, false)
      else applySpecificF failAt a y v rest (updateOrCreatePerf db a st.id y s) (cnt + 1)

/-- The POST upsert body under the fault model: the committed state and
whether the request completed without a storage error. -/
def applyAllF (failAt : Option Nat) (univ : List (String × String)) (a sp : Nat)
    (y : Int) (v : String → Option String) (db : DB) : DB × Bool :=
  let r1 := applyUniversalF failAt a y v univ db 0
  if r1.2.2 then
    let r2 := applySpecificF failAt a y v (specificFor r1.1 sp) r1.1 r1.2.1
    (r2.1, r2.2.2)
  else (r1.1, false)

/-- A universal enumeration like `UNIVERSAL_STATISTICS`, used as the
concrete input exhibiting the missing-transaction behaviour. -/
def c1Univ : List (String × String) := [("pts", "Points"), ("reb", "Rebounds")]

/-- A validated submission filling both universal fields. -/
def c1Values : String → Option String := fun k =>
  if k = "pts" then some "10" else if k = "reb" then some "5" else none

/-- An empty store. -/
def c1Db : DB := ⟨[], [], 0⟩

/-! ## The roster list view (`athlete_list`, views.py:25-91) -/

/-- The `Coach` profile of a requesting user, as the list view reads it. -/
structure CoachProfile where
  team : Option Team
  deriving DecidableEq, Repr

/-- The `Athlete` profile of a requesting user, as the list view reads it. -/
structure AthleteProfile where
  team : Option Team
  deriving DecidableEq, Repr

/-- The requesting user of `athlete_list`: role plus the optional profiles
the `hasattr(request.user, …)` checks look for. -/
structure Requester where
  role : Role
  coach : Option CoachProfile
  athlete : Option AthleteProfile
  deriving DecidableEq, Repr

/-- The role-scoped base queryset of `athlete_list` (views.py:34-43):
admins see every athlete, a coach with a team sees that team's athletes, an
athlete with a team sees their teammates, and everything else sees nothing.
Team membership is compared by team primary key, as the SQL filter does. -/
def visibleAthletes (athletes : List Athlete) (req : Requester) : List Athlete :=
  match req.role with
  | Role.administrator => athletes
  | Role.coach =>
    match req.coach with
    | some cp =>
      match cp.team with
      | some t => athletes.filter (fun a => a.team.map Team.id == some t.id)
      | none => []
    | none => []
  | Role.athlete =>
    match req.athlete with
    | some ap =>
      match ap.team with
      | some t => athletes.filter (fun a => a.team.map Team.id == some t.id)
      | none => []
    | none => []
  | Role.other => []

/-- The bulk-delete branch (views.py:50-60): the submitted ids are filtered
against the requester's own visible queryset, and the surviving user pks are
the ones whose `CustomUser` rows get deleted. -/
def deletableUserIds (athletes : List Athlete) (req : Requester) (ids : List Nat) : List Nat :=
  ((visibleAthletes athletes req).filter (fun a => ids.contains a.userId)).map Athlete.userId

theorem matchesTriple_iff {a i : Nat} {y : Int} {r : PerformanceStat} :
    matchesTriple a i y r = true ↔ r.athleteId = a ∧ r.statId = i ∧ r.year = y := by
  simp [matchesTriple, and_assoc]

theorem recsFor_length_le_one {db : DB} (h : AtMostOne db) (a i : Nat) (y : Int) :
    (recsFor db a i y).length ≤ 1 := by
  cases hh : recsFor db a i y with
  | nil => simp
  | cons r rest =>
    have hr : r ∈ recsFor db a i y := by rw [hh]; exact List.mem_cons_self r rest
    have hm : matchesTriple a i y r = true := List.of_mem_filter hr
    have hp : r ∈ db.perf := List.mem_of_mem_filter hr
    obtain ⟨h1, h2, h3⟩ := matchesTriple_iff.mp hm
    have hlen := h r hp
    rw [h1, h2, h3, hh] at hlen
    exact hlen

theorem atMostOne_iff {db : DB} :
    AtMostOne db ↔ ∀ a i y, (recsFor db a i y).length ≤ 1 := by
  constructor
  · intro h a i y; exact recsFor_length_le_one h a i y
  · intro h r _; exact h _ _ _

theorem ustatsFor_length_le_one {db : DB} (h : UStatUnique db) (label : String) :
    (ustatsFor db label).length ≤ 1 := by
  cases hh : ustatsFor db label with
  | nil => simp
  | cons st rest =>
    have hr : st ∈ ustatsFor db label := by rw [hh]; exact List.mem_cons_self st rest
    have hm := List.of_mem_filter hr
    have hp : st ∈ db.stats := List.mem_of_mem_filter hr
    simp only [Bool.and_eq_true, beq_iff_eq] at hm
    have hlen := h st hp hm.2
    rw [hm.1, hh] at hlen
    exact hlen

/-! ## Basic lemmas about the two ORM write primitives -/

theorem filter_map_comm {α : Type} (p : α → Bool) (f : α → α)
    (hf : ∀ r, p (f r) = p r) (l : List α) :
    (l.map f).filter p = (l.filter p).map f := by
  induction l with
  | nil => rfl
  | cons r t ih =>
    cases h : p r with
    | true => simp [List.filter_cons, hf, h, ih]
    | false => simp [List.filter_cons, hf, h, ih]

theorem filter_map_eq_of {α : Type} (p : α → Bool) (f : α → α)
    (hp : ∀ r, p (f r) = p r) (hid : ∀ r, p r = true → f r = r) (l : List α) :
    (l.map f).filter p = l.filter p := by
  induction l with
  | nil => rfl
  | cons r t ih =>
    cases h : p r with
    | true => simp [List.filter_cons, hp, h, ih, hid r h]
    | false => simp [List.filter_cons, hp, h, ih]

theorem map_eq_self_of {α : Type} (f : α → α) (l : List α)
    (h : ∀ r ∈ l, f r = r) : l.map f = l := by
  induction l with
  | nil => rfl
  | cons r t ih =>
    simp only [List.map_cons, h r (List.mem_cons_self r t)]
    rw [ih (fun r hr => h r (List.mem_cons_of_mem _ hr))]

theorem updateOrCreatePerf_stats (db : DB) (a i : Nat) (y : Int) (v : String) :
    (updateOrCreatePerf db a i y v).stats = db.stats := by
  unfold updateOrCreatePerf; split <;> rfl

theorem updateOrCreatePerf_nextStatId (db : DB) (a i : Nat) (y : Int) (v : String) :
    (updateOrCreatePerf db a i y v).nextStatId = db.nextStatId := by
  unfold updateOrCreatePerf; split <;> rfl

theorem matchesTriple_self (a i : Nat) (y : Int) (v : String) :
    matchesTriple a i y ⟨a, i, y, v⟩ = true := by
  simp [matchesTriple]

theorem matchesTriple_set_value (a i : Nat) (y : Int) (r : PerformanceStat) (v : String) :
    matchesTriple a i y { r with value := v } = matchesTriple a i y r := by
  simp [matchesTriple]

/-- Writing a triple whose row set obeys the invariant leaves exactly the one
row with the new value: update-in-place, or creation of the single first
row. -/
theorem recsFor_updateOrCreatePerf_self {db : DB} {a i : Nat} {y : Int} (v : String)
    (h : (recsFor db a i y).length ≤ 1) :
    recsFor (updateOrCreatePerf db a i y v) a i y = [⟨a, i, y, v⟩] := by
  have h' : (db.perf.filter (matchesTriple a i y)).length ≤ 1 := h
  have hf : ∀ r, matchesTriple a i y
      (if matchesTriple a i y r then { r with value := v } else r) =
      matchesTriple a i y r := by
    intro r
    cases hm : matchesTriple a i y r <;> simp [hm, matchesTriple_set_value]
  unfold recsFor updateOrCreatePerf
  split
  case isTrue hany =>
    obtain ⟨r0, hr0, hm0⟩ := List.any_eq_true.mp hany
    have hmem : r0 ∈ db.perf.filter (matchesTriple a i y) :=
      List.mem_filter.mpr ⟨hr0, hm0⟩
    have hfil : db.perf.filter (matchesTriple a i y) = [r0] := by
      cases hc : db.perf.filter (matchesTriple a i y) with
      | nil => rw [hc] at hmem; cases hmem
      | cons x xs =>
        rw [hc] at h' hmem
        have hxs : xs = [] := by
          simp only [List.length_cons] at h'
          exact List.eq_nil_of_length_eq_zero (by omega)
        subst hxs
        simp only [List.mem_singleton] at hmem
        rw [hmem]
    show List.filter _ (db.perf.map _) = _
    rw [filter_map_comm _ _ hf, hfil]
    obtain ⟨h1, h2, h3⟩ := matchesTriple_iff.mp hm0
    simp only [List.map_cons, List.map_nil, hm0, if_pos]
    cases r0
    simp_all
  case isFalse hany =>
    have hnil : db.perf.filter (matchesTriple a i y) = [] := by
      rw [List.filter_eq_nil_iff]
      intro r hr hm
      exact hany (List.any_eq_true.mpr ⟨r, hr, hm⟩)
    show List.filter _ (db.perf ++ _) = _
    rw [List.filter_append, hnil]
    simp [matchesTriple_self]

/-- Writing one triple does not touch the rows of any other triple. -/
theorem recsFor_updateOrCreatePerf_other {db : DB} {a i : Nat} {y : Int} (v : String)
    {a' i' : Nat} {y' : Int} (hne : ¬(a' = a ∧ i' = i ∧ y' = y)) :
    recsFor (updateOrCreatePerf db a i y v) a' i' y' = recsFor db a' i' y' := by
  unfold recsFor updateOrCreatePerf
  split
  case isTrue hany =>
    show List.filter _ (db.perf.map _) = _
    apply filter_map_eq_of
    · intro r
      cases hm : matchesTriple a i y r <;> simp [hm, matchesTriple_set_value]
    · intro r hr
      cases hm : matchesTriple a i y r with
      | false => simp [hm]
      | true =>
        exfalso
        obtain ⟨p1, p2, p3⟩ := matchesTriple_iff.mp hm
        obtain ⟨q1, q2, q3⟩ := matchesTriple_iff.mp hr
        exact hne ⟨q1.symm.trans p1, q2.symm.trans p2, q3.symm.trans p3⟩
  case isFalse hany =>
    have hnm : matchesTriple a' i' y' (⟨a, i, y, v⟩ : PerformanceStat) = false := by
      cases hm : matchesTriple a' i' y' (⟨a, i, y, v⟩ : PerformanceStat) with
      | false => rfl
      | true =>
        obtain ⟨q1, q2, q3⟩ := matchesTriple_iff.mp hm
        exact absurd ⟨q1.symm, q2.symm, q3.symm⟩ hne
    show List.filter _ (db.perf ++ _) = _
    rw [List.filter_append]
    simp [hnm]

/-- Every row after a write is an old row or carries the written triple. -/
theorem mem_perf_updateOrCreatePerf {db : DB} {a i : Nat} {y : Int} {v : String}
    {r : PerformanceStat} (h : r ∈ (updateOrCreatePerf db a i y v).perf) :
    r ∈ db.perf ∨ (r.athleteId = a ∧ r.statId = i ∧ r.year = y ∧ r.value = v) := by
  unfold updateOrCreatePerf at h
  split at h
  case isTrue =>
    obtain ⟨r0, hr0, hfr⟩ := List.mem_map.mp h
    by_cases hm : matchesTriple a i y r0 = true
    · right
      obtain ⟨p1, p2, p3⟩ := matchesTriple_iff.mp hm
      rw [← hfr]
      simp [hm, p1, p2, p3]
    · left
      rw [← hfr, if_neg hm]
      exact hr0
  case isFalse =>
    rcases List.mem_append.mp h with h | h
    · left; exact h
    · right
      simp only [List.mem_singleton] at h
      subst h
      exact ⟨rfl, rfl, rfl, rfl⟩

/-- The upsert primitive preserves the one-row-per-triple invariant. -/
theorem atMostOne_updateOrCreatePerf {db : DB} (h : AtMostOne db)
    (a i : Nat) (y : Int) (v : String) :
    AtMostOne (updateOrCreatePerf db a i y v) := by
  rw [atMostOne_iff] at h ⊢
  intro a' i' y'
  by_cases he : a' = a ∧ i' = i ∧ y' = y
  · obtain ⟨e1, e2, e3⟩ := he
    subst e1; subst e2; subst e3
    rw [recsFor_updateOrCreatePerf_self v (h a' i' y')]
    simp
  · rw [recsFor_updateOrCreatePerf_other v he]
    exact h a' i' y'

theorem getOrCreateStat_found {db : DB} {label key : String} {s : Statistic}
    (h : db.stats.find? (fun s => s.name == label && s.sport == none) = some s) :
    getOrCreateStat db label key = (s, db) := by
  unfold getOrCreateStat
  rw [h]

theorem getOrCreateStat_create {db : DB} {label key : String}
    (h : db.stats.find? (fun s => s.name == label && s.sport == none) = none) :
    getOrCreateStat db label key =
      (⟨db.nextStatId, label, key, none⟩,
       { db with stats := db.stats ++ [⟨db.nextStatId, label, key, none⟩],
                 nextStatId := db.nextStatId + 1 }) := by
  unfold getOrCreateStat
  rw [h]

theorem getOrCreateStat_perf (db : DB) (label key : String) :
    ((getOrCreateStat db label key).2).perf = db.perf := by
  cases h : db.stats.find? (fun s => s.name == label && s.sport == none) with
  | some s => rw [getOrCreateStat_found h]
  | none => rw [getOrCreateStat_create h]

/-- The statistic `get_or_create` resolves is a universal row with the looked
up display name, present in the resulting state. -/
theorem getOrCreateStat_spec (db : DB) (label key : String) :
    (getOrCreateStat db label key).1 ∈ ((getOrCreateStat db label key).2).stats ∧
    (getOrCreateStat db label key).1.sport = none ∧
    (getOrCreateStat db label key).1.name = label := by
  cases h : db.stats.find? (fun s => s.name == label && s.sport == none) with
  | some s =>
    rw [getOrCreateStat_found h]
    have hm := List.find?_some h
    have hmem := List.mem_of_find?_eq_some h
    simp only [Bool.and_eq_true, beq_iff_eq] at hm
    exact ⟨hmem, hm.2, hm.1⟩
  | none =>
    rw [getOrCreateStat_create h]
    refine ⟨?_, rfl, rfl⟩
    simp

/-! ## Monotone growth of the `Statistic` table -/

theorem statsExtend_refl (db : DB) : StatsExtend db db :=
  ⟨le_refl _, [], by simp, by simp⟩

theorem statsExtend_trans {db1 db2 db3 : DB}
    (h12 : StatsExtend db1 db2) (h23 : StatsExtend db2 db3) : StatsExtend db1 db3 := by
  obtain ⟨hn12, cs1, he1, hc1⟩ := h12
  obtain ⟨hn23, cs2, he2, hc2⟩ := h23
  refine ⟨le_trans hn12 hn23, cs1 ++ cs2, by rw [he2, he1, List.append_assoc], ?_⟩
  intro c hc
  rcases List.mem_append.mp hc with h | h
  · exact hc1 c h
  · obtain ⟨hs, hi⟩ := hc2 c h
    exact ⟨hs, le_trans hn12 hi⟩

theorem statsExtend_getOrCreateStat (db : DB) (label key : String) :
    StatsExtend db (getOrCreateStat db label key).2 := by
  cases h : db.stats.find? (fun s => s.name == label && s.sport == none) with
  | some s => rw [getOrCreateStat_found h]; exact statsExtend_refl _
  | none =>
    rw [getOrCreateStat_create h]
    exact ⟨Nat.le_succ _, [⟨db.nextStatId, label, key, none⟩], rfl, by simp⟩

theorem statsExtend_updateOrCreatePerf (db : DB) (a i : Nat) (y : Int) (v : String) :
    StatsExtend db (updateOrCreatePerf db a i y v) := by
  refine ⟨le_of_eq (updateOrCreatePerf_nextStatId db a i y v).symm, [], ?_, by simp⟩
  rw [updateOrCreatePerf_stats]
  simp

theorem statsExtend_stepUniversal (a : Nat) (y : Int) (v : String → Option String)
    (db : DB) (e : String × String) : StatsExtend db (stepUniversal a y v db e) := by
  unfold stepUniversal
  cases hv : v e.1 with
  | none => exact statsExtend_refl _
  | some s =>
    by_cases hs : s = ""
    · simp only [hs, if_pos]
      exact statsExtend_refl _
    · simp only [hs, if_neg, not_false_iff]
      exact statsExtend_trans (statsExtend_getOrCreateStat db e.2 e.1)
        (statsExtend_updateOrCreatePerf _ _ _ _ _)

theorem statsExtend_applyUniversal (a : Nat) (y : Int) (v : String → Option String)
    (es : List (String × String)) : ∀ db : DB, StatsExtend db (applyUniversal a y v es db) := by
  induction es with
  | nil => intro db; exact statsExtend_refl _
  | cons e rest ih =>
    intro db
    exact statsExtend_trans (statsExtend_stepUniversal a y v db e) (ih _)

theorem stepSpecific_stats (a : Nat) (y : Int) (v : String → Option String)
    (db : DB) (st : Statistic) : (stepSpecific a y v db st).stats = db.stats := by
  unfold stepSpecific
  cases hv : v st.short_name with
  | none => rfl
  | some s =>
    by_cases hs : s = ""
    · simp [hs]
    · simp [hs, updateOrCreatePerf_stats]

theorem stepSpecific_nextStatId (a : Nat) (y : Int) (v : String → Option String)
    (db : DB) (st : Statistic) : (stepSpecific a y v db st).nextStatId = db.nextStatId := by
  unfold stepSpecific
  cases hv : v st.short_name with
  | none => rfl
  | some s =>
    by_cases hs : s = ""
    · simp [hs]
    · simp [hs, updateOrCreatePerf_nextStatId]

theorem applySpecific_stats (a : Nat) (y : Int) (v : String → Option String)
    (sts : List Statistic) : ∀ db : DB, (applySpecific a y v sts db).stats = db.stats := by
  induction sts with
  | nil => intro db; rfl
  | cons st rest ih =>
    intro db
    rw [applySpecific, ih, stepSpecific_stats]

theorem applySpecific_nextStatId (a : Nat) (y : Int) (v : String → Option String)
    (sts : List Statistic) : ∀ db : DB, (applySpecific a y v sts db).nextStatId = db.nextStatId := by
  induction sts with
  | nil => intro db; rfl
  | cons st rest ih =>
    intro db
    rw [applySpecific, ih, stepSpecific_nextStatId]

theorem mem_stats_of_statsExtend {db db' : DB} (h : StatsExtend db db')
    {st : Statistic} (hm : st ∈ db.stats) : st ∈ db'.stats := by
  obtain ⟨-, cs, he, -⟩ := h
  rw [he]
  exact List.mem_append_left _ hm

/-! ## Preservation of the invariants by every step of the workflow -/

theorem recsFor_congr {db db' : DB} (hp : db'.perf = db.perf) (a i : Nat) (y : Int) :
    recsFor db' a i y = recsFor db a i y := by
  unfold recsFor; rw [hp]

theorem atMostOne_congr {db db' : DB} (hp : db'.perf = db.perf) (h : AtMostOne db) :
    AtMostOne db' := by
  rw [atMostOne_iff] at h ⊢
  intro a i y
  rw [recsFor_congr hp]
  exact h a i y

theorem ustatsFor_congr {db db' : DB} (hs : db'.stats = db.stats) (label : String) :
    ustatsFor db' label = ustatsFor db label := by
  unfold ustatsFor; rw [hs]

theorem uStatUnique_congr {db db' : DB} (hs : db'.stats = db.stats) (h : UStatUnique db) :
    UStatUnique db' := by
  intro st hmem hsp
  rw [ustatsFor_congr hs]
  exact h st (hs ▸ hmem) hsp

theorem wf_congr {db db' : DB} (hs : db'.stats = db.stats)
    (hn : db'.nextStatId = db.nextStatId) (h : WF db) : WF db' := by
  obtain ⟨h1, h2⟩ := h
  constructor
  · unfold NodupIds at *
    rw [hs]
    exact h1
  · intro st hst
    rw [hn]
    exact h2 st (hs ▸ hst)

theorem wf_getOrCreateStat (db : DB) (label key : String) (h : WF db) :
    WF (getOrCreateStat db label key).2 := by
  cases hf : db.stats.find? (fun s => s.name == label && s.sport == none) with
  | some s => rw [getOrCreateStat_found hf]; exact h
  | none =>
    rw [getOrCreateStat_create hf]
    obtain ⟨hn, hb⟩ := h
    constructor
    · unfold NodupIds at *
      simp only [List.map_append, List.map_cons, List.map_nil]
      rw [List.nodup_append]
      refine ⟨hn, List.nodup_singleton _, ?_⟩
      intro x hx hx2
      simp only [List.mem_singleton] at hx2
      subst hx2
      obtain ⟨st, hst, hid⟩ := List.mem_map.mp hx
      exact absurd (hid ▸ hb st hst) (lt_irrefl _)
    · intro st hst
      simp only [List.mem_append, List.mem_singleton] at hst
      rcases hst with hst | hst
      · exact Nat.lt_succ_of_lt (hb st hst)
      · subst hst; exact Nat.lt_succ_self _

theorem uStatUnique_getOrCreateStat (db : DB) (label key : String) (h : UStatUnique db) :
    UStatUnique (getOrCreateStat db label key).2 := by
  cases hf : db.stats.find? (fun s => s.name == label && s.sport == none) with
  | some s => rw [getOrCreateStat_found hf]; exact h
  | none =>
    rw [getOrCreateStat_create hf]
    intro st hmem hsp
    have hulabel : ustatsFor db label = [] := by
      unfold ustatsFor
      rw [List.filter_eq_nil_iff]
      intro x hx
      exact List.find?_eq_none.mp hf x hx
    have hcalc : ustatsFor
        { db with stats := db.stats ++ [⟨db.nextStatId, label, key, none⟩],
                  nextStatId := db.nextStatId + 1 } st.name =
        ustatsFor db st.name ++
          List.filter (fun s => s.name == st.name && s.sport == none)
            [⟨db.nextStatId, label, key, none⟩] := by
      unfold ustatsFor
      exact List.filter_append _ _
    rw [hcalc]
    by_cases hname : st.name = label
    · rw [hname, hulabel]
      simp
    · have hfil : List.filter (fun s => s.name == st.name && s.sport == none)
          [(⟨db.nextStatId, label, key, none⟩ : Statistic)] = [] := by
        simp only [List.filter, Bool.and_eq_true, beq_iff_eq]
        have : ((⟨db.nextStatId, label, key, none⟩ : Statistic).name == st.name) = false := by
          simp only [beq_eq_false_iff_ne]
          exact fun hc => hname hc.symm
        simp [this]
      rw [hfil, List.append_nil]
      simp only [List.mem_append, List.mem_singleton] at hmem
      rcases hmem with hmem | hmem
      · exact h st hmem hsp
      · exact absurd (congrArg Statistic.name hmem) (by simpa using hname)

theorem atMostOne_stepUniversal (a : Nat) (y : Int) (v : String → Option String)
    (db : DB) (e : String × String) (h : AtMostOne db) :
    AtMostOne (stepUniversal a y v db e) := by
  unfold stepUniversal
  cases hv : v e.1 with
  | none => exact h
  | some s =>
    by_cases hs : s = ""
    · simp only [hs, if_pos]
      exact h
    · simp only [hs, if_neg, not_false_iff]
      exact atMostOne_updateOrCreatePerf
        (atMostOne_congr (getOrCreateStat_perf db e.2 e.1) h) _ _ _ _

theorem uStatUnique_stepUniversal (a : Nat) (y : Int) (v : String → Option String)
    (db : DB) (e : String × String) (h : UStatUnique db) :
    UStatUnique (stepUniversal a y v db e) := by
  unfold stepUniversal
  cases hv : v e.1 with
  | none => exact h
  | some s =>
    by_cases hs : s = ""
    · simp only [hs, if_pos]
      exact h
    · simp only [hs, if_neg, not_false_iff]
      exact uStatUnique_congr (updateOrCreatePerf_stats _ _ _ _ _)
        (uStatUnique_getOrCreateStat db e.2 e.1 h)

theorem wf_stepUniversal (a : Nat) (y : Int) (v : String → Option String)
    (db : DB) (e : String × String) (h : WF db) :
    WF (stepUniversal a y v db e) := by
  unfold stepUniversal
  cases hv : v e.1 with
  | none => exact h
  | some s =>
    by_cases hs : s = ""
    · simp only [hs, if_pos]
      exact h
    · simp only [hs, if_neg, not_false_iff]
      exact wf_congr (updateOrCreatePerf_stats _ _ _ _ _)
        (updateOrCreatePerf_nextStatId _ _ _ _ _) (wf_getOrCreateStat db e.2 e.1 h)

theorem atMostOne_applyUniversal (a : Nat) (y : Int) (v : String → Option String)
    (es : List (String × String)) : ∀ db : DB, AtMostOne db →
    AtMostOne (applyUniversal a y v es db) := by
  induction es with
  | nil => intro db h; exact h
  | cons e rest ih =>
    intro db h
    exact ih _ (atMostOne_stepUniversal a y v db e h)

theorem uStatUnique_applyUniversal (a : Nat) (y : Int) (v : String → Option String)
    (es : List (String × String)) : ∀ db : DB, UStatUnique db →
    UStatUnique (applyUniversal a y v es db) := by
  induction es with
  | nil => intro db h; exact h
  | cons e rest ih =>
    intro db h
    exact ih _ (uStatUnique_stepUniversal a y v db e h)

theorem wf_applyUniversal (a : Nat) (y : Int) (v : String → Option String)
    (es : List (String × String)) : ∀ db : DB, WF db →
    WF (applyUniversal a y v es db) := by
  induction es with
  | nil => intro db h; exact h
  | cons e rest ih =>
    intro db h
    exact ih _ (wf_stepUniversal a y v db e h)

theorem atMostOne_stepSpecific (a : Nat) (y : Int) (v : String → Option String)
    (db : DB) (st : Statistic) (h : AtMostOne db) :
    AtMostOne (stepSpecific a y v db st) := by
  unfold stepSpecific
  cases hv : v st.short_name with
  | none => exact h
  | some s =>
    by_cases hs : s = ""
    · simp only [hs, if_pos]
      exact h
    · simp only [hs, if_neg, not_false_iff]
      exact atMostOne_updateOrCreatePerf h _ _ _ _

theorem atMostOne_applySpecific (a : Nat) (y : Int) (v : String → Option String)
    (sts : List Statistic) : ∀ db : DB, AtMostOne db →
    AtMostOne (applySpecific a y v sts db) := by
  induction sts with
  | nil => intro db h; exact h
  | cons st rest ih =>
    intro db h
    exact ih _ (atMostOne_stepSpecific a y v db st h)

theorem atMostOne_applyAll (univ : List (String × String)) (a sp : Nat) (y : Int)
    (v : String → Option String) (db : DB) (h : AtMostOne db) :
    AtMostOne (applyAll univ a sp y v db) :=
  atMostOne_applySpecific a y v _ _ (atMostOne_applyUniversal a y v univ db h)

/-! ## Where the upsert loops can write -/

/-- Any row present after one universal-loop pass is an old row, or a row for
the submitted athlete and year whose statistic is a universal (null-sport)
row of the resulting state. -/
theorem mem_perf_stepUniversal {a : Nat} {y : Int} {v : String → Option String}
    {db : DB} {e : String × String} {r : PerformanceStat}
    (h : r ∈ (stepUniversal a y v db e).perf) :
    r ∈ db.perf ∨ (r.athleteId = a ∧ r.year = y ∧
      ∃ st ∈ (stepUniversal a y v db e).stats, st.sport = none ∧ st.id = r.statId) := by
  unfold stepUniversal at h ⊢
  cases hv : v e.1 with
  | none => rw [hv] at h; exact Or.inl h
  | some s =>
    rw [hv] at h
    dsimp only at h ⊢
    by_cases hs : s = ""
    · rw [if_pos hs] at h
      exact Or.inl h
    · rw [if_neg hs] at h ⊢
      rcases mem_perf_updateOrCreatePerf h with h | ⟨h1, h2, h3, -⟩
      · rw [getOrCreateStat_perf] at h
        exact Or.inl h
      · refine Or.inr ⟨h1, h3, (getOrCreateStat db e.2 e.1).1, ?_, ?_, h2.symm⟩
        · rw [updateOrCreatePerf_stats]
          exact (getOrCreateStat_spec db e.2 e.1).1
        · exact (getOrCreateStat_spec db e.2 e.1).2.1

theorem mem_perf_applyUniversal {a : Nat} {y : Int} {v : String → Option String}
    {es : List (String × String)} {r : PerformanceStat} :
    ∀ {db : DB}, r ∈ (applyUniversal a y v es db).perf →
    r ∈ db.perf ∨ (r.athleteId = a ∧ r.year = y ∧
      ∃ st ∈ (applyUniversal a y v es db).stats, st.sport = none ∧ st.id = r.statId) := by
  induction es with
  | nil => intro db h; exact Or.inl h
  | cons e rest ih =>
    intro db h
    rcases ih h with h1 | ⟨h1, h2, st, hst, hsp, hid⟩
    · rcases mem_perf_stepUniversal h1 with h2 | ⟨h2, h3, st, hst, hsp, hid⟩
      · exact Or.inl h2
      · exact Or.inr ⟨h2, h3, st,
          mem_stats_of_statsExtend (statsExtend_applyUniversal a y v rest _) hst, hsp, hid⟩
    · exact Or.inr ⟨h1, h2, st, hst, hsp, hid⟩

/-- Any row present after one sport-specific pass is an old row or a row for
the submitted athlete and year referencing the iterated statistic. -/
theorem mem_perf_stepSpecific {a : Nat} {y : Int} {v : String → Option String}
    {db : DB} {st : Statistic} {r : PerformanceStat}
    (h : r ∈ (stepSpecific a y v db st).perf) :
    r ∈ db.perf ∨ (r.athleteId = a ∧ r.year = y ∧ r.statId = st.id) := by
  unfold stepSpecific at h
  cases hv : v st.short_name with
  | none => rw [hv] at h; exact Or.inl h
  | some s =>
    rw [hv] at h
    dsimp only at h
    by_cases hs : s = ""
    · rw [if_pos hs] at h
      exact Or.inl h
    · rw [if_neg hs] at h
      rcases mem_perf_updateOrCreatePerf h with h | ⟨h1, h2, h3, -⟩
      · exact Or.inl h
      · exact Or.inr ⟨h1, h3, h2⟩

theorem mem_perf_applySpecific {a : Nat} {y : Int} {v : String → Option String}
    {sts : List Statistic} {r : PerformanceStat} :
    ∀ {db : DB}, r ∈ (applySpecific a y v sts db).perf →
    r ∈ db.perf ∨ (r.athleteId = a ∧ r.year = y ∧ ∃ st ∈ sts, r.statId = st.id) := by
  induction sts with
  | nil => intro db h; exact Or.inl h
  | cons st rest ih =>
    intro db h
    rcases ih h with h1 | ⟨h1, h2, st1, hst1, hid⟩
    · rcases mem_perf_stepSpecific h1 with h2 | ⟨h2, h3, hid⟩
      · exact Or.inl h2
      · exact Or.inr ⟨h2, h3, st, List.mem_cons_self st rest, hid⟩
    · exact Or.inr ⟨h1, h2, st1, List.mem_cons_of_mem st hst1, hid⟩

/-! ## Frame lemmas: triples the loops do not write are untouched -/

theorem mem_specificFor {db : DB} {sp : Nat} {st : Statistic} :
    st ∈ specificFor db sp ↔ st ∈ db.stats ∧ st.sport = some sp := by
  unfold specificFor
  simp [List.mem_filter]

/-- If every universal statistic row carrying primary key `i0` has a display
name that no nonblank submitted entry targets, the universal loop leaves the
rows of every triple with statistic `i0` unchanged. -/
theorem recsFor_applyUniversal_frame {a : Nat} {y : Int} {v : String → Option String}
    {a0 i0 : Nat} {y0 : Int} :
    ∀ (es : List (String × String)) (db : DB),
    i0 < db.nextStatId →
    (∀ st ∈ db.stats, st.sport = none → st.id = i0 →
      ∀ e ∈ es, ∀ s, v e.1 = some s → s ≠ "" → st.name ≠ e.2) →
    recsFor (applyUniversal a y v es db) a0 i0 y0 = recsFor db a0 i0 y0 := by
  intro es
  induction es with
  | nil => intro db _ _; rfl
  | cons e rest ih =>
    intro db hlt havoid
    have hstep : recsFor (stepUniversal a y v db e) a0 i0 y0 = recsFor db a0 i0 y0 := by
      unfold stepUniversal
      cases hv : v e.1 with
      | none => rfl
      | some s =>
        dsimp only
        by_cases hs : s = ""
        · rw [if_pos hs]
        · rw [if_neg hs]
          cases hf : db.stats.find? (fun s2 => s2.name == e.2 && s2.sport == none) with
          | some st0 =>
            rw [getOrCreateStat_found hf]
            have hmem := List.mem_of_find?_eq_some hf
            have hpred := List.find?_some hf
            simp only [Bool.and_eq_true, beq_iff_eq] at hpred
            have hid : st0.id ≠ i0 := by
              intro hc
              exact havoid st0 hmem hpred.2 hc e (List.mem_cons_self e rest) s hv hs hpred.1
            exact recsFor_updateOrCreatePerf_other s (fun hc => hid hc.2.1.symm)
          | none =>
            rw [getOrCreateStat_create hf]
            have hid : db.nextStatId ≠ i0 := fun hc => absurd (hc ▸ hlt) (lt_irrefl _)
            rw [recsFor_updateOrCreatePerf_other s (fun hc => hid hc.2.1.symm)]
            rfl
    have h1 : i0 < (stepUniversal a y v db e).nextStatId :=
      lt_of_lt_of_le hlt (statsExtend_stepUniversal a y v db e).1
    have h2 : ∀ st ∈ (stepUniversal a y v db e).stats, st.sport = none → st.id = i0 →
        ∀ e2 ∈ rest, ∀ s, v e2.1 = some s → s ≠ "" → st.name ≠ e2.2 := by
      obtain ⟨hn, cs, hcs, hprop⟩ := statsExtend_stepUniversal a y v db e
      intro st hst hsp hido e2 he2 s hv2 hs2
      rw [hcs] at hst
      rcases List.mem_append.mp hst with hst | hst
      · exact havoid st hst hsp hido e2 (List.mem_cons_of_mem e he2) s hv2 hs2
      · obtain ⟨-, hge⟩ := hprop st hst
        exact absurd hido (by omega)
    exact (ih _ h1 h2).trans hstep

/-- If no nonblank submitted entry targets a statistic with primary key
equal to the triple's, the sport-specific loop leaves that triple's rows
unchanged. -/
theorem recsFor_applySpecific_frame {a : Nat} {y : Int} {v : String → Option String}
    {a0 i0 : Nat} {y0 : Int} :
    ∀ (sts : List Statistic) (db : DB),
    (∀ st ∈ sts, ∀ s, v st.short_name = some s → s ≠ "" →
      ¬(a0 = a ∧ i0 = st.id ∧ y0 = y)) →
    recsFor (applySpecific a y v sts db) a0 i0 y0 = recsFor db a0 i0 y0 := by
  intro sts
  induction sts with
  | nil => intro db _; rfl
  | cons st rest ih =>
    intro db havoid
    have hstep : recsFor (stepSpecific a y v db st) a0 i0 y0 = recsFor db a0 i0 y0 := by
      unfold stepSpecific
      cases hv : v st.short_name with
      | none => rfl
      | some s =>
        dsimp only
        by_cases hs : s = ""
        · rw [if_pos hs]
        · rw [if_neg hs]
          exact recsFor_updateOrCreatePerf_other s
            (havoid st (List.mem_cons_self st rest) s hv hs)
    exact (ih _ (fun st2 h2 => havoid st2 (List.mem_cons_of_mem st h2))).trans hstep

/-! ## Idempotence machinery: states already carrying the submitted values -/

theorem eq_singleton_of_mem_of_length_le_one {α : Type} {l : List α} {x : α}
    (hm : x ∈ l) (hl : l.length ≤ 1) : l = [x] := by
  cases l with
  | nil => cases hm
  | cons a t =>
    cases t with
    | nil =>
      simp only [List.mem_singleton] at hm
      rw [hm]
    | cons b u =>
      exfalso
      simp only [List.length_cons] at hl
      omega

theorem find?_eq_of_filter_singleton {α : Type} {p : α → Bool} {l : List α} {x : α}
    (h : l.filter p = [x]) : l.find? p = some x := by
  cases hf : l.find? p with
  | none =>
    have hnil : l.filter p = [] := by
      rw [List.filter_eq_nil_iff]
      intro a ha
      exact List.find?_eq_none.mp hf a ha
    rw [hnil] at h
    cases h
  | some st0 =>
    have hmem : st0 ∈ l.filter p :=
      List.mem_filter.mpr ⟨List.mem_of_find?_eq_some hf, List.find?_some hf⟩
    rw [h] at hmem
    simp only [List.mem_singleton] at hmem
    rw [hmem]

theorem eq_of_mem_of_id_eq {db : DB} (hn : NodupIds db) {s1 s2 : Statistic}
    (h1 : s1 ∈ db.stats) (h2 : s2 ∈ db.stats) (hid : s1.id = s2.id) : s1 = s2 :=
  List.inj_on_of_nodup_map hn h1 h2 hid

/-- Re-writing a triple that already holds exactly the submitted value is a
no-op on the whole state. -/
theorem updateOrCreatePerf_of_done {db : DB} {a i : Nat} {y : Int} {s : String}
    (h : recsFor db a i y = [⟨a, i, y, s⟩]) :
    updateOrCreatePerf db a i y s = db := by
  have hrm : (⟨a, i, y, s⟩ : PerformanceStat) ∈ recsFor db a i y := by
    rw [h]
    exact List.mem_cons_self _ _
  have hmemp : (⟨a, i, y, s⟩ : PerformanceStat) ∈ db.perf := List.mem_of_mem_filter hrm
  have hany : db.perf.any (matchesTriple a i y) = true :=
    List.any_eq_true.mpr ⟨_, hmemp, matchesTriple_self a i y s⟩
  unfold updateOrCreatePerf
  rw [if_pos hany]
  have hmap : db.perf.map
      (fun r => if matchesTriple a i y r then { r with value := s } else r) = db.perf := by
    apply map_eq_self_of
    intro r hr
    by_cases hm : matchesTriple a i y r = true
    · have hrf : r ∈ recsFor db a i y := List.mem_filter.mpr ⟨hr, hm⟩
      rw [h] at hrf
      simp only [List.mem_singleton] at hrf
      rw [if_pos hm, hrf]
    · rw [if_neg hm]
  rw [hmap]

/-- On a state that already reflects the submission, the universal loop is
the identity. -/
theorem applyUniversal_of_done {a : Nat} {y : Int} {v : String → Option String} :
    ∀ (es : List (String × String)) (db : DB), UnivDone a y v es db → UStatUnique db →
    applyUniversal a y v es db = db := by
  intro es
  induction es with
  | nil => intro db _ _; rfl
  | cons e rest ih =>
    intro db hdone huniq
    have hstep : stepUniversal a y v db e = db := by
      unfold stepUniversal
      cases hv : v e.1 with
      | none => rfl
      | some s =>
        dsimp only
        by_cases hs : s = ""
        · rw [if_pos hs]
        · rw [if_neg hs]
          obtain ⟨st, hmem, hsp, hname, hrecs⟩ :=
            hdone e (List.mem_cons_self e rest) s hv hs
          have hstmem : st ∈ ustatsFor db e.2 :=
            List.mem_filter.mpr ⟨hmem, by simp [hname, hsp]⟩
          have hsing : ustatsFor db e.2 = [st] :=
            eq_singleton_of_mem_of_length_le_one hstmem (ustatsFor_length_le_one huniq e.2)
          have hfind : db.stats.find? (fun s2 => s2.name == e.2 && s2.sport == none) = some st :=
            find?_eq_of_filter_singleton hsing
          rw [getOrCreateStat_found hfind]
          exact updateOrCreatePerf_of_done hrecs
    show applyUniversal a y v rest (stepUniversal a y v db e) = db
    rw [hstep]
    exact ih db (fun e2 he2 => hdone e2 (List.mem_cons_of_mem e he2)) huniq

/-- On a state that already reflects the submission, the sport-specific loop
is the identity. -/
theorem applySpecific_of_done {a : Nat} {y : Int} {v : String → Option String} :
    ∀ (sts : List Statistic) (db : DB), SpecDone a y v sts db →
    applySpecific a y v sts db = db := by
  intro sts
  induction sts with
  | nil => intro db _; rfl
  | cons st rest ih =>
    intro db hdone
    have hstep : stepSpecific a y v db st = db := by
      unfold stepSpecific
      cases hv : v st.short_name with
      | none => rfl
      | some s =>
        dsimp only
        by_cases hs : s = ""
        · rw [if_pos hs]
        · rw [if_neg hs]
          exact updateOrCreatePerf_of_done (hdone st (List.mem_cons_self st rest) s hv hs)
    show applySpecific a y v rest (stepSpecific a y v db st) = db
    rw [hstep]
    exact ih db (fun st2 h2 => hdone st2 (List.mem_cons_of_mem st h2))

/-- After the universal loop runs, the state reflects every nonblank
universal entry, provided the fixed enumeration has pairwise distinct
display names. -/
theorem univDone_applyUniversal {a : Nat} {y : Int} {v : String → Option String} :
    ∀ (es : List (String × String)) (db : DB), WF db → UStatUnique db → AtMostOne db →
    (es.map Prod.snd).Nodup →
    UnivDone a y v es (applyUniversal a y v es db) := by
  intro es
  induction es with
  | nil => intro db _ _ _ _ e he; cases he
  | cons e rest ih =>
    intro db hwf huniq hamo hnodup
    have hwf1 := wf_stepUniversal a y v db e hwf
    have huniq1 := uStatUnique_stepUniversal a y v db e huniq
    have hamo1 := atMostOne_stepUniversal a y v db e hamo
    have hnodup1 : (rest.map Prod.snd).Nodup := by
      simp only [List.map_cons, List.nodup_cons] at hnodup
      exact hnodup.2
    intro e2 he2 s hv2 hs2
    rcases List.mem_cons.mp he2 with rfl | he2
    · obtain ⟨hmem0, hsp0, hname0⟩ := getOrCreateStat_spec db e2.2 e2.1
      have hstep_eq : stepUniversal a y v db e2 =
          updateOrCreatePerf (getOrCreateStat db e2.2 e2.1).2 a
            (getOrCreateStat db e2.2 e2.1).1.id y s := by
        unfold stepUniversal
        rw [hv2]
        dsimp only
        rw [if_neg hs2]
      have h1 : (getOrCreateStat db e2.2 e2.1).1 ∈ (stepUniversal a y v db e2).stats := by
        rw [hstep_eq, updateOrCreatePerf_stats]
        exact hmem0
      refine ⟨(getOrCreateStat db e2.2 e2.1).1,
        mem_stats_of_statsExtend (statsExtend_applyUniversal a y v rest _) h1,
        hsp0, hname0, ?_⟩
      have hlen : (recsFor (getOrCreateStat db e2.2 e2.1).2 a
          (getOrCreateStat db e2.2 e2.1).1.id y).length ≤ 1 := by
        rw [recsFor_congr (getOrCreateStat_perf db e2.2 e2.1)]
        exact recsFor_length_le_one hamo a _ y
      have hrec1 : recsFor (stepUniversal a y v db e2) a
          (getOrCreateStat db e2.2 e2.1).1.id y =
          [⟨a, (getOrCreateStat db e2.2 e2.1).1.id, y, s⟩] := by
        rw [hstep_eq]
        exact recsFor_updateOrCreatePerf_self s hlen
      have hframe : recsFor (applyUniversal a y v rest (stepUniversal a y v db e2)) a
          (getOrCreateStat db e2.2 e2.1).1.id y =
          recsFor (stepUniversal a y v db e2) a (getOrCreateStat db e2.2 e2.1).1.id y := by
        apply recsFor_applyUniversal_frame
        · exact hwf1.2 _ h1
        · intro st' hst' hsp' hid' e3 he3 s3 hv3 hs3
          have hsame : st' = (getOrCreateStat db e2.2 e2.1).1 :=
            eq_of_mem_of_id_eq hwf1.1 hst' h1 hid'
          rw [hsame, hname0]
          simp only [List.map_cons, List.nodup_cons] at hnodup
          intro hc
          apply hnodup.1
          rw [hc]
          exact List.mem_map_of_mem Prod.snd he3
      exact hframe.trans hrec1
    · exact ih _ hwf1 huniq1 hamo1 hnodup1 e2 he2 s hv2 hs2

/-- After the sport-specific loop runs over definitions with pairwise
distinct primary keys, the state reflects every nonblank entry. -/
theorem specDone_applySpecific {a : Nat} {y : Int} {v : String → Option String} :
    ∀ (sts : List Statistic) (db : DB), (sts.map Statistic.id).Nodup → AtMostOne db →
    SpecDone a y v sts (applySpecific a y v sts db) := by
  intro sts
  induction sts with
  | nil => intro db _ _ st hst; cases hst
  | cons st rest ih =>
    intro db hnodup hamo
    have hamo1 := atMostOne_stepSpecific a y v db st hamo
    have hnodup1 : (rest.map Statistic.id).Nodup := by
      simp only [List.map_cons, List.nodup_cons] at hnodup
      exact hnodup.2
    intro st2 hst2 s hv2 hs2
    rcases List.mem_cons.mp hst2 with rfl | hst2
    · have hstep_eq : stepSpecific a y v db st2 = updateOrCreatePerf db a st2.id y s := by
        unfold stepSpecific
        rw [hv2]
        dsimp only
        rw [if_neg hs2]
      have hrec1 : recsFor (stepSpecific a y v db st2) a st2.id y = [⟨a, st2.id, y, s⟩] := by
        rw [hstep_eq]
        exact recsFor_updateOrCreatePerf_self s (recsFor_length_le_one hamo a st2.id y)
      have hframe : recsFor (applySpecific a y v rest (stepSpecific a y v db st2)) a st2.id y
          = recsFor (stepSpecific a y v db st2) a st2.id y := by
        apply recsFor_applySpecific_frame
        intro st3 hst3 s3 hv3 hs3 hc
        simp only [List.map_cons, List.nodup_cons] at hnodup
        apply hnodup.1
        rw [hc.2.1]
        exact List.mem_map_of_mem Statistic.id hst3
      exact hframe.trans hrec1
    · exact ih _ hnodup1 hamo1 st2 hst2 s hv2 hs2

theorem applyAll_eq (univ : List (String × String)) (a sp : Nat) (y : Int)
    (v : String → Option String) (db : DB) :
    applyAll univ a sp y v db =
      applySpecific a y v (specificFor (applyUniversal a y v univ db) sp)
        (applyUniversal a y v univ db) := rfl

theorem specificFor_sublist (db : DB) (sp : Nat) :
    (specificFor db sp).Sublist db.stats :=
  List.filter_sublist _

/-- Idempotence of the whole upsert body: running the same submission twice
from a well-formed state ends in exactly the state of running it once. -/
theorem applyAll_idem (univ : List (String × String)) (a sp : Nat) (y : Int)
    (v : String → Option String) (db : DB)
    (hwf : WF db) (huniq : UStatUnique db) (hamo : AtMostOne db)
    (hnodup : (univ.map Prod.snd).Nodup) :
    applyAll univ a sp y v (applyAll univ a sp y v db) = applyAll univ a sp y v db := by
  have hwf1 := wf_applyUniversal a y v univ db hwf
  have huniq1 := uStatUnique_applyUniversal a y v univ db huniq
  have hamo1 := atMostOne_applyUniversal a y v univ db hamo
  have hdoneU : UnivDone a y v univ (applyUniversal a y v univ db) :=
    univDone_applyUniversal univ db hwf huniq hamo hnodup
  set db1 := applyUniversal a y v univ db with hdb1
  set specs := specificFor db1 sp with hspecs
  have hspecnodup : (specs.map Statistic.id).Nodup := by
    have hsub : (specs.map Statistic.id).Sublist (db1.stats.map Statistic.id) := by
      rw [hspecs]
      exact (specificFor_sublist db1 sp).map _
    exact hwf1.1.sublist hsub
  have hdoneS : SpecDone a y v specs (applySpecific a y v specs db1) :=
    specDone_applySpecific specs db1 hspecnodup hamo1
  set db2 := applySpecific a y v specs db1 with hdb2
  have hstats12 : db2.stats = db1.stats := by
    rw [hdb2]
    exact applySpecific_stats a y v specs db1
  have hdoneU2 : UnivDone a y v univ db2 := by
    intro e he s hv2 hs2
    obtain ⟨st, hmem, hsp, hname, hrecs⟩ := hdoneU e he s hv2 hs2
    refine ⟨st, by rw [hstats12]; exact hmem, hsp, hname, ?_⟩
    have hcond : ∀ st3 ∈ specs, ∀ s3, v st3.short_name = some s3 → s3 ≠ "" →
        ¬(a = a ∧ st.id = st3.id ∧ y = y) := by
      intro st3 hst3 s3 hv3 hs3 hc
      rw [hspecs] at hst3
      have h3 := mem_specificFor.mp hst3
      have heq : st = st3 := eq_of_mem_of_id_eq hwf1.1 hmem h3.1 hc.2.1
      rw [heq, h3.2] at hsp
      exact Option.noConfusion hsp
    have hframe := recsFor_applySpecific_frame specs db1 hcond
    rw [hdb2]
    exact hframe.trans hrecs
  have huniq2 : UStatUnique db2 := uStatUnique_congr hstats12 huniq1
  have hU2 : applyUniversal a y v univ db2 = db2 :=
    applyUniversal_of_done univ db2 hdoneU2 huniq2
  have hspecs2 : specificFor db2 sp = specs := by
    rw [hspecs]
    unfold specificFor
    rw [hstats12]
  have hfirst : applyAll univ a sp y v db = db2 := by
    rw [applyAll_eq, ← hdb1, ← hspecs, ← hdb2]
  rw [hfirst, applyAll_eq, hU2, hspecs2]
  exact applySpecific_of_done specs db2 hdoneS

/-! ## The fault model coincides with the plain embedding when no fault fires -/

/-- Sanity: with no injected fault the fallible loops coincide with the
plain embedding of the view code. -/
theorem applyUniversalF_none (a : Nat) (y : Int) (v : String → Option String) :
    ∀ (es : List (String × String)) (db : DB) (cnt : Nat), ∃ c2,
    applyUniversalF none a y v es db cnt = (applyUniversal a y v es db, c2, true) := by
  intro es
  induction es with
  | nil => intro db cnt; exact ⟨cnt, rfl⟩
  | cons e rest ih =>
    intro db cnt
    simp only [applyUniversalF]
    rw [show applyUniversal a y v (e :: rest) db
        = applyUniversal a y v rest (stepUniversal a y v db e) from rfl]
    cases hv : v e.1 with
    | none =>
      have hstep : stepUniversal a y v db e = db := by
        unfold stepUniversal
        rw [hv]
      rw [hstep]
      exact ih db cnt
    | some s =>
      dsimp only
      by_cases hs : s = ""
      · rw [if_pos hs]
        have hstep : stepUniversal a y v db e = db := by
          unfold stepUniversal
          rw [hv]
          dsimp only
          rw [if_pos hs]
        rw [hstep]
        exact ih db cnt
      · rw [if_neg hs, if_neg (by simp)]
        have hstep : stepUniversal a y v db e =
            updateOrCreatePerf (getOrCreateStat db e.2 e.1).2 a
              (getOrCreateStat db e.2 e.1).1.id y s := by
          unfold stepUniversal
          rw [hv]
          dsimp only
          rw [if_neg hs]
        rw [hstep]
        exact ih _ (cnt + 1)

theorem applySpecificF_none (a : Nat) (y : Int) (v : String → Option String) :
    ∀ (sts : List Statistic) (db : DB) (cnt : Nat), ∃ c2,
    applySpecificF none a y v sts db cnt = (applySpecific a y v sts db, c2, true) := by
  intro sts
  induction sts with
  | nil => intro db cnt; exact ⟨cnt, rfl⟩
  | cons st rest ih =>
    intro db cnt
    simp only [applySpecificF]
    rw [show applySpecific a y v (st :: rest) db
        = applySpecific a y v rest (stepSpecific a y v db st) from rfl]
    cases hv : v st.short_name with
    | none =>
      have hstep : stepSpecific a y v db st = db := by
        unfold stepSpecific
        rw [hv]
      rw [hstep]
      exact ih db cnt
    | some s =>
      dsimp only
      by_cases hs : s = ""
      · rw [if_pos hs]
        have hstep : stepSpecific a y v db st = db := by
          unfold stepSpecific
          rw [hv]
          dsimp only
          rw [if_pos hs]
        rw [hstep]
        exact ih db cnt
      · rw [if_neg hs, if_neg (by simp)]
        have hstep : stepSpecific a y v db st = updateOrCreatePerf db a st.id y s := by
          unfold stepSpecific
          rw [hv]
          dsimp only
          rw [if_neg hs]
        rw [hstep]
        exact ih _ (cnt + 1)

theorem applyAllF_none (univ : List (String × String)) (a sp : Nat) (y : Int)
    (v : String → Option String) (db : DB) :
    applyAllF none univ a sp y v db = (applyAll univ a sp y v db, true) := by
  obtain ⟨c1, h1⟩ := applyUniversalF_none a y v univ db 0
  obtain ⟨c2, h2⟩ := applySpecificF_none a y v
    (specificFor (applyUniversal a y v univ db) sp) (applyUniversal a y v univ db) c1
  unfold applyAllF
  rw [h1]
  dsimp only
  rw [h2, applyAll_eq]
  simp

/-! ## Which `Statistic` rows the universal loop can create -/

theorem mem_stats_stepUniversal {a : Nat} {y : Int} {v : String → Option String}
    {db : DB} {e : String × String} {st : Statistic}
    (h : st ∈ (stepUniversal a y v db e).stats) :
    st ∈ db.stats ∨
      ((∃ s, v e.1 = some s ∧ s ≠ "") ∧ st.name = e.2 ∧ st.sport = none ∧
        db.nextStatId ≤ st.id) := by
  unfold stepUniversal at h
  cases hv : v e.1 with
  | none => rw [hv] at h; exact Or.inl h
  | some s =>
    rw [hv] at h
    dsimp only at h
    by_cases hs : s = ""
    · rw [if_pos hs] at h
      exact Or.inl h
    · rw [if_neg hs] at h
      rw [updateOrCreatePerf_stats] at h
      cases hf : db.stats.find? (fun s2 => s2.name == e.2 && s2.sport == none) with
      | some s0 =>
        rw [getOrCreateStat_found hf] at h
        exact Or.inl h
      | none =>
        rw [getOrCreateStat_create hf] at h
        rcases List.mem_append.mp h with h | h
        · exact Or.inl h
        · simp only [List.mem_singleton] at h
          subst h
          exact Or.inr ⟨⟨s, rfl, hs⟩, rfl, rfl, le_refl _⟩

theorem mem_stats_applyUniversal {a : Nat} {y : Int} {v : String → Option String} :
    ∀ (es : List (String × String)) (db : DB) {st : Statistic},
    st ∈ (applyUniversal a y v es db).stats →
    st ∈ db.stats ∨
      ((∃ e ∈ es, ∃ s, v e.1 = some s ∧ s ≠ "" ∧ st.name = e.2) ∧ st.sport = none ∧
        db.nextStatId ≤ st.id) := by
  intro es
  induction es with
  | nil => intro db st h; exact Or.inl h
  | cons e rest ih =>
    intro db st h
    rcases ih _ h with h1 | ⟨⟨e3, he3, s, hv, hs, hname⟩, hsp, hid⟩
    · rcases mem_stats_stepUniversal h1 with h2 | ⟨⟨s, hv, hs⟩, hname, hsp, hid⟩
      · exact Or.inl h2
      · exact Or.inr ⟨⟨e, List.mem_cons_self e rest, s, hv, hs, hname⟩, hsp, hid⟩
    · exact Or.inr ⟨⟨e3, List.mem_cons_of_mem e he3, s, hv, hs, hname⟩, hsp,
        le_trans (statsExtend_stepUniversal a y v db e).1 hid⟩

/-! ## Selecting a single field of the synthesized form by its key -/

theorem filter_toField_singleton {α : Type} (key lab : α → String) :
    ∀ (es : List α) (e : α), (es.map key).Nodup → e ∈ es →
    (es.map (fun e2 => Field.stat (key e2) (lab e2) false)).filter
      (fun f => fieldKey f == some (key e)) = [Field.stat (key e) (lab e) false] := by
  intro es
  induction es with
  | nil => intro e _ he; cases he
  | cons a t ih =>
    intro e hnodup he
    simp only [List.map_cons, List.nodup_cons] at hnodup
    rcases List.mem_cons.mp he with rfl | he
    · rw [List.map_cons, List.filter_cons, if_pos (by simp [fieldKey])]
      have hnil : (t.map (fun e2 => Field.stat (key e2) (lab e2) false)).filter
          (fun f => fieldKey f == some (key e)) = [] := by
        rw [List.filter_eq_nil_iff]
        intro f hf
        obtain ⟨e3, he3, rfl⟩ := List.mem_map.mp hf
        simp only [fieldKey, beq_iff_eq, Option.some.injEq]
        intro hc
        apply hnodup.1
        rw [← hc]
        exact List.mem_map_of_mem key he3
      rw [hnil]
    · have hne : ¬((fun f => fieldKey f == some (key e))
          (Field.stat (key a) (lab a) false) = true) := by
        simp only [fieldKey, beq_iff_eq, Option.some.injEq]
        intro hc
        apply hnodup.1
        rw [hc]
        exact List.mem_map_of_mem key he
      rw [List.map_cons, List.filter_cons, if_neg hne]
      exact ih e hnodup.2 he

/-! ## Shape of the request handler on each control path -/

theorem manageStats_eq_noTeam {univ : List (String × String)} {actor : Actor}
    {ath : Athlete} {db : DB} {req : Req} {cy : Int} (h : ath.team = none) :
    manageStats univ actor ath db req cy = (Response.errorNoTeam, db) := by
  unfold manageStats
  rw [h]

theorem manageStats_eq_denied {univ : List (String × String)} {actor : Actor}
    {ath : Athlete} {db : DB} {req : Req} {cy : Int} {t : Team} (h : ath.team = some t)
    (hcm : canManage actor ath = false) :
    manageStats univ actor ath db req cy = (Response.errorNotAuthorized, db) := by
  unfold manageStats
  rw [h]
  dsimp only
  rw [hcm]
  simp

theorem manageStats_eq_get {univ : List (String × String)} {actor : Actor}
    {ath : Athlete} {db : DB} {cy : Int} {t : Team} (h : ath.team = some t)
    (hcm : canManage actor ath = true) :
    manageStats univ actor ath db Req.get cy =
      (Response.renderForm (scorecardFields univ db t.sport cy), db) := by
  unfold manageStats
  rw [h]
  dsimp only
  rw [hcm]
  simp

theorem manageStats_eq_post {univ : List (String × String)} {actor : Actor}
    {ath : Athlete} {db : DB} {y : Int} {v : String → Option String} {cy : Int}
    {t : Team} (h : ath.team = some t) (hcm : canManage actor ath = true) :
    manageStats univ actor ath db (Req.post y v) cy =
      (Response.successStats, applyAll univ ath.id t.sport y v db) := by
  unfold manageStats
  rw [h]
  dsimp only
  rw [hcm]
  simp

/-! ## The claims -/

/-- Claim C3: authorization is exactly admin-or-own-coach.  The gate
`is_their_coach or is_admin` grants access precisely when the actor's role
is `ADMINISTRATOR`, or the actor has a `Coach` profile and the athlete's
assigned coach is that profile; every other combination yields an error
redirect with the store untouched, and a granted POST reaches the upsert
engine. -/
theorem c3_authorization_admin_or_own_coach (actor : Actor) (ath : Athlete) :
    (canManage actor ath = true ↔
      (actor.role = Role.administrator ∨
        ∃ c, actor.coachId = some c ∧ ath.coachId = some c)) ∧
    (canManage actor ath = false →
      ∀ (univ : List (String × String)) (db : DB) (req : Req) (cy : Int),
        (manageStats univ actor ath db req cy).2 = db ∧
        (manageStats univ actor ath db req cy).1 =
          (if ath.team = none then Response.errorNoTeam else Response.errorNotAuthorized)) ∧
    (∀ t, ath.team = some t → canManage actor ath = true →
      ∀ (univ : List (String × String)) (db : DB) (y : Int)
        (v : String → Option String) (cy : Int),
        manageStats univ actor ath db (Req.post y v) cy =
          (Response.successStats, applyAll univ ath.id t.sport y v db)) := by
  refine ⟨?_, ?_, ?_⟩
  · unfold canManage isTheirCoach isAdmin
    cases hc : actor.coachId with
    | none => simp
    | some c =>
      simp only [Bool.or_eq_true, beq_iff_eq, Option.some.injEq]
      constructor
      · rintro (h | h)
        · exact Or.inr ⟨c, rfl, h⟩
        · exact Or.inl h
      · rintro (h | ⟨c2, hc2, h2⟩)
        · exact Or.inr h
        · subst hc2
          exact Or.inl h2
  · intro hcm univ db req cy
    cases ht : ath.team with
    | none =>
      rw [manageStats_eq_noTeam ht, if_pos rfl]
      exact ⟨rfl, rfl⟩
    | some t =>
      rw [manageStats_eq_denied ht hcm, if_neg (by simp [ht])]
      exact ⟨rfl, rfl⟩
  · intro t ht hcm univ db y v cy
    exact manageStats_eq_post ht hcm

/-- Closed instance of C3: a coach profile that is the athlete's coach is
granted; the athlete's own user (no coach profile, role `ATHLETE`) is denied
and the store is untouched. -/
theorem c3_witness :
    canManage ⟨Role.coach, some 4, none⟩ ⟨1, 1, some ⟨3, 9⟩, some 4⟩ = true ∧
    (manageStats [] ⟨Role.athlete, none, some 1⟩ ⟨1, 1, some ⟨3, 9⟩, some 4⟩
      ⟨[], [], 0⟩ Req.get 2024).2 = ⟨[], [], 0⟩ := by
  constructor
  · exact (c3_authorization_admin_or_own_coach ⟨Role.coach, some 4, none⟩
      ⟨1, 1, some ⟨3, 9⟩, some 4⟩).1.mpr (Or.inr ⟨4, rfl, rfl⟩)
  · exact ((c3_authorization_admin_or_own_coach ⟨Role.athlete, none, some 1⟩
      ⟨1, 1, some ⟨3, 9⟩, some 4⟩).2.1 (by decide) [] ⟨[], [], 0⟩ Req.get 2024).1

/-- Claim C5: the no-team precondition takes precedence over authorization.
Whenever the athlete has no team, every request — any actor, any role, GET
or POST — gets the error redirect to the athlete detail view and the store
is untouched; the upsert engine is never reached. -/
theorem c5_no_team_precedence (univ : List (String × String)) (actor : Actor)
    (ath : Athlete) (db : DB) (req : Req) (cy : Int) (h : ath.team = none) :
    manageStats univ actor ath db req cy = (Response.errorNoTeam, db) :=
  manageStats_eq_noTeam h

/-- Closed instance of C5: even an administrator posting valid data for a
team-less athlete is rejected with the store untouched. -/
theorem c5_witness :
    (⟨1, 1, none, some 4⟩ : Athlete).team = none ∧
    manageStats [("pts", "Points")] ⟨Role.administrator, none, none⟩ ⟨1, 1, none, some 4⟩
        ⟨[], [], 0⟩ (Req.post 2024 (fun _ => some "10")) 2024 =
      (Response.errorNoTeam, ⟨[], [], 0⟩) :=
  ⟨rfl, c5_no_team_precedence [("pts", "Points")] ⟨Role.administrator, none, none⟩
    ⟨1, 1, none, some 4⟩ ⟨[], [], 0⟩ (Req.post 2024 (fun _ => some "10")) 2024 rfl⟩

/-- Claim C8: per-triple uniqueness is preserved.  From a state with at most
one `PerformanceStat` row per (athlete, statistic, year) triple, any upsert
submission again has at most one row per triple; and each single write
either rewrites the existing row of its triple in place or creates the one
first row, leaving exactly `[⟨athlete, statistic, year, value⟩]`. -/
theorem c8_per_triple_uniqueness (univ : List (String × String)) (a sp : Nat) (y : Int)
    (v : String → Option String) (db : DB) (h : AtMostOne db) :
    AtMostOne (applyAll univ a sp y v db) ∧
    ∀ i s, recsFor (updateOrCreatePerf db a i y s) a i y = [⟨a, i, y, s⟩] :=
  ⟨atMostOne_applyAll univ a sp y v db h,
   fun i s => recsFor_updateOrCreatePerf_self s (recsFor_length_le_one h a i y)⟩

/-- Closed instance of C8 on a one-row store. -/
theorem c8_witness :
    AtMostOne (⟨[], [⟨1, 0, 2024, "7"⟩], 1⟩ : DB) ∧
    AtMostOne (applyAll [("pts", "Points")] 1 2 2024 (fun _ => some "9")
      ⟨[], [⟨1, 0, 2024, "7"⟩], 1⟩) ∧
    recsFor (updateOrCreatePerf (⟨[], [⟨1, 0, 2024, "7"⟩], 1⟩ : DB) 1 0 2024 "9") 1 0 2024 =
      [⟨1, 0, 2024, "9"⟩] := by
  have h := c8_per_triple_uniqueness [("pts", "Points")] 1 2 2024 (fun _ => some "9")
    ⟨[], [⟨1, 0, 2024, "7"⟩], 1⟩ (by decide)
  exact ⟨by decide, h.1, h.2 0 "9"⟩

/-- Claim C9 (implicit): the universal upsert resolves statistics by
(display name, null sport) only.  Every pre-existing `Statistic` row — its
`short_name` in particular — survives any submission unchanged, and when a
universal definition with the looked-up display name already exists,
`get_or_create` returns it without touching the store, ignoring the
submitted `short_name` default entirely. -/
theorem c9_universal_resolution_by_name (univ : List (String × String)) (a sp : Nat)
    (y : Int) (v : String → Option String) (db : DB) :
    (∀ st ∈ db.stats, st ∈ (applyAll univ a sp y v db).stats) ∧
    (∀ label key, (∃ st ∈ db.stats, st.name = label ∧ st.sport = none) →
      (getOrCreateStat db label key).2 = db ∧
      (getOrCreateStat db label key).1 ∈ db.stats ∧
      (getOrCreateStat db label key).1.name = label ∧
      (getOrCreateStat db label key).1.sport = none) := by
  constructor
  · intro st hst
    rw [applyAll_eq]
    rw [show (applySpecific a y v (specificFor (applyUniversal a y v univ db) sp)
        (applyUniversal a y v univ db)).stats = (applyUniversal a y v univ db).stats from
      applySpecific_stats a y v _ _]
    exact mem_stats_of_statsExtend (statsExtend_applyUniversal a y v univ db) hst
  · intro label key hex
    cases hf : db.stats.find? (fun s2 => s2.name == label && s2.sport == none) with
    | none =>
      exfalso
      obtain ⟨st, hst, hname, hsp⟩ := hex
      have hnot := List.find?_eq_none.mp hf st hst
      simp [hname, hsp] at hnot
    | some s0 =>
      have hm := List.find?_some hf
      simp only [Bool.and_eq_true, beq_iff_eq] at hm
      rw [getOrCreateStat_found hf]
      exact ⟨rfl, List.mem_of_find?_eq_some hf, hm.1, hm.2⟩

/-- Closed instance of C9: resolving "Points" under a totally different
submitted key leaves the store — and the existing row's `short_name` —
untouched. -/
theorem c9_witness :
    (getOrCreateStat ⟨[⟨0, "Points", "pts", none⟩], [], 1⟩ "Points" "other-key").2 =
      (⟨[⟨0, "Points", "pts", none⟩], [], 1⟩ : DB) ∧
    (getOrCreateStat ⟨[⟨0, "Points", "pts", none⟩], [], 1⟩ "Points" "other-key").1 ∈
      ([⟨0, "Points", "pts", none⟩] : List Statistic) := by
  have h := (c9_universal_resolution_by_name [] 1 2 2024 (fun _ => none)
      ⟨[⟨0, "Points", "pts", none⟩], [], 1⟩).2 "Points" "other-key"
      ⟨⟨0, "Points", "pts", none⟩, by simp, rfl, rfl⟩
  exact ⟨h.1, h.2.1⟩

/-- Claim C10 (implicit): the bulk-delete branch of `athlete_list` only ever
deletes users inside the requester's role-visible queryset: every user pk it
queues for deletion was submitted in the request and belongs to an athlete
of the requester's visible set (all athletes for admins, own-team athletes
for coaches and athletes, none otherwise). -/
theorem c10_bulk_delete_scoped (athletes : List Athlete) (req : Requester)
    (ids : List Nat) :
    ∀ u ∈ deletableUserIds athletes req ids,
      u ∈ ids ∧ ∃ a2 ∈ visibleAthletes athletes req, a2.userId = u := by
  intro u hu
  unfold deletableUserIds at hu
  obtain ⟨a2, ha2, rfl⟩ := List.mem_map.mp hu
  have hmem := List.mem_of_mem_filter ha2
  have hpred := List.of_mem_filter ha2
  refine ⟨?_, a2, hmem, rfl⟩
  simpa using hpred

/-- Closed instance of C10: a coach of team 3 submitting the pk of an
athlete on team 5 deletes nothing. -/
theorem c10_witness :
    deletableUserIds [⟨1, 8, some ⟨5, 2⟩, some 4⟩] ⟨Role.coach, some ⟨some ⟨3, 9⟩⟩, none⟩ [8] = [] ∧
    ∀ u ∈ deletableUserIds [⟨1, 8, some ⟨5, 2⟩, some 4⟩] ⟨Role.coach, some ⟨some ⟨3, 9⟩⟩, none⟩ [8],
      u ∈ [8] ∧ ∃ a2 ∈ visibleAthletes [⟨1, 8, some ⟨5, 2⟩, some 4⟩]
        ⟨Role.coach, some ⟨some ⟨3, 9⟩⟩, none⟩, a2.userId = u :=
  ⟨by decide, c10_bulk_delete_scoped [⟨1, 8, some ⟨5, 2⟩, some 4⟩]
    ⟨Role.coach, some ⟨some ⟨3, 9⟩⟩, none⟩ [8]⟩

/-- Claim C7: universal / sport-specific isolation.  A statistic owned by
sport A is never in the applicable set of a different sport B; every field
of the in-source `GameReportForm` and of the dynamic scorecard form comes
from the universal enumeration, that sport's own statistics, or the year
field; and the upsert loops only ever write rows whose statistic is
universal or owned by the athlete's own sport. -/
theorem c7_universal_specific_isolation (db : DB) (univ : List (String × String))
    (a spA spB : Nat) (y : Int) (v : String → Option String) (cy : Int) :
    (∀ st : Statistic, st.sport = some spA → spA ≠ spB → st ∉ specificFor db spB) ∧
    (∀ f ∈ gameReportFields db spB,
      ∃ st ∈ db.stats, st.sport = some spB ∧ f = Field.stat st.short_name st.name false) ∧
    (∀ f ∈ scorecardFields univ db spB cy,
      f = Field.yearField true cy ∨
      (∃ e ∈ univ, f = Field.stat e.1 e.2 false) ∨
      (∃ st ∈ db.stats, st.sport = some spB ∧ f = Field.stat st.short_name st.name false)) ∧
    (∀ r ∈ (applyAll univ a spB y v db).perf,
      r ∈ db.perf ∨ ∃ st ∈ (applyAll univ a spB y v db).stats,
        st.id = r.statId ∧ (st.sport = none ∨ st.sport = some spB)) := by
  refine ⟨?_, ?_, ?_, ?_⟩
  · intro st hsp hne hmem
    have h2 := (mem_specificFor.mp hmem).2
    rw [hsp] at h2
    injection h2 with h3
    exact hne h3
  · intro f hf
    unfold gameReportFields at hf
    obtain ⟨st, hst, rfl⟩ := List.mem_map.mp hf
    have h2 := mem_specificFor.mp hst
    exact ⟨st, h2.1, h2.2, rfl⟩
  · intro f hf
    unfold scorecardFields at hf
    rcases List.mem_append.mp hf with hf | hf
    · rcases List.mem_append.mp hf with hf | hf
      · obtain ⟨e, he, rfl⟩ := List.mem_map.mp hf
        exact Or.inr (Or.inl ⟨e, he, rfl⟩)
      · obtain ⟨st, hst, rfl⟩ := List.mem_map.mp hf
        have h2 := mem_specificFor.mp hst
        exact Or.inr (Or.inr ⟨st, h2.1, h2.2, rfl⟩)
    · simp only [List.mem_singleton] at hf
      exact Or.inl hf
  · intro r hr
    rw [applyAll_eq] at hr
    rcases mem_perf_applySpecific hr with hr1 | ⟨h1, h2, st, hst, hid⟩
    · rcases mem_perf_applyUniversal hr1 with hr2 | ⟨h1, h2, st, hst, hsp, hid⟩
      · exact Or.inl hr2
      · refine Or.inr ⟨st, ?_, hid, Or.inl hsp⟩
        rw [applyAll_eq, applySpecific_stats]
        exact hst
    · have h3 := mem_specificFor.mp hst
      refine Or.inr ⟨st, ?_, hid.symm, Or.inr h3.2⟩
      rw [applyAll_eq, applySpecific_stats]
      exact h3.1

/-- Closed instance of C7: a soccer statistic (sport 1) is not applicable
for a basketball athlete (sport 2). -/
theorem c7_witness :
    (⟨0, "Goals", "goals", some 1⟩ : Statistic) ∉
      specificFor ⟨[⟨0, "Goals", "goals", some 1⟩], [], 1⟩ 2 :=
  (c7_universal_specific_isolation ⟨[⟨0, "Goals", "goals", some 1⟩], [], 1⟩ [] 1 1 2
    2024 (fun _ => none) 2024).1 ⟨0, "Goals", "goals", some 1⟩ rfl (by decide)

/-- Claim C6: for every sport, the dynamically built scorecard form has
exactly one optional free-text field keyed by `short_code` for each
applicable statistic — each universal entry and each statistic owned by the
sport — plus exactly one required year field defaulting to the current year
on fresh construction (the per-sport `short_code` uniqueness of §3 is
assumed). -/
theorem c6_scorecard_form_fields (univ : List (String × String)) (db : DB) (sp : Nat)
    (cy : Int)
    (hnodup : (univ.map Prod.fst ++ (specificFor db sp).map Statistic.short_name).Nodup) :
    (∀ e ∈ univ, (scorecardFields univ db sp cy).filter
        (fun f => fieldKey f == some e.1) = [Field.stat e.1 e.2 false]) ∧
    (∀ st ∈ db.stats, st.sport = some sp → (scorecardFields univ db sp cy).filter
        (fun f => fieldKey f == some st.short_name) =
        [Field.stat st.short_name st.name false]) ∧
    (scorecardFields univ db sp cy).filter isYear = [Field.yearField true cy] := by
  rw [List.nodup_append] at hnodup
  obtain ⟨hU, hS, hdisj⟩ := hnodup
  refine ⟨?_, ?_, ?_⟩
  · intro e he
    unfold scorecardFields
    rw [List.filter_append, List.filter_append]
    have hA := filter_toField_singleton Prod.fst Prod.snd univ e hU he
    have hB : ((specificFor db sp).map
        (fun st => Field.stat st.short_name st.name false)).filter
        (fun f => fieldKey f == some e.1) = [] := by
      rw [List.filter_eq_nil_iff]
      intro f hf
      obtain ⟨st3, hst3, rfl⟩ := List.mem_map.mp hf
      simp only [fieldKey, beq_iff_eq, Option.some.injEq]
      intro hc
      exact hdisj (List.mem_map_of_mem Prod.fst he)
        (by rw [← hc]; exact List.mem_map_of_mem Statistic.short_name hst3)
    have hY : ([Field.yearField true cy] : List Field).filter
        (fun f => fieldKey f == some e.1) = [] := by
      simp [List.filter_cons, List.filter_nil, fieldKey]
    rw [hA, hB, hY]
    simp
  · intro st hst hsp
    have hstmem : st ∈ specificFor db sp := mem_specificFor.mpr ⟨hst, hsp⟩
    unfold scorecardFields
    rw [List.filter_append, List.filter_append]
    have hB := filter_toField_singleton Statistic.short_name Statistic.name
      (specificFor db sp) st hS hstmem
    have hA : (univ.map (fun e => Field.stat e.1 e.2 false)).filter
        (fun f => fieldKey f == some st.short_name) = [] := by
      rw [List.filter_eq_nil_iff]
      intro f hf
      obtain ⟨e3, he3, rfl⟩ := List.mem_map.mp hf
      simp only [fieldKey, beq_iff_eq, Option.some.injEq]
      intro hc
      exact hdisj (List.mem_map_of_mem Prod.fst he3)
        (by rw [hc]; exact List.mem_map_of_mem Statistic.short_name hstmem)
    have hY : ([Field.yearField true cy] : List Field).filter
        (fun f => fieldKey f == some st.short_name) = [] := by
      simp [List.filter_cons, List.filter_nil, fieldKey]
    rw [hA, hB, hY]
    simp
  · unfold scorecardFields
    rw [List.filter_append, List.filter_append]
    have hA : (univ.map (fun e => Field.stat e.1 e.2 false)).filter isYear = [] := by
      rw [List.filter_eq_nil_iff]
      intro f hf
      obtain ⟨e3, he3, rfl⟩ := List.mem_map.mp hf
      simp [isYear]
    have hB : ((specificFor db sp).map
        (fun st => Field.stat st.short_name st.name false)).filter isYear = [] := by
      rw [List.filter_eq_nil_iff]
      intro f hf
      obtain ⟨st3, hst3, rfl⟩ := List.mem_map.mp hf
      simp [isYear]
    rw [hA, hB]
    simp [List.filter_cons, List.filter_nil, isYear]

/-- Closed instance of C6 on one universal entry and one soccer statistic. -/
theorem c6_witness :
    ((([("pts", "Points")] : List (String × String)).map Prod.fst ++
      (specificFor ⟨[⟨0, "Goals", "goals", some 3⟩], [], 1⟩ 3).map Statistic.short_name).Nodup) ∧
    (scorecardFields [("pts", "Points")] ⟨[⟨0, "Goals", "goals", some 3⟩], [], 1⟩ 3 2024).filter
      isYear = [Field.yearField true 2024] :=
  ⟨by decide,
   (c6_scorecard_form_fields [("pts", "Points")] ⟨[⟨0, "Goals", "goals", some 3⟩], [], 1⟩
     3 2024 (by decide)).2.2⟩

/-- Claim C4: selective write, no delete-on-blank.  A statistic whose form
key is absent or blank in the submission neither creates, modifies nor
deletes anything for its (athlete, statistic, year) triple: for a blank
universal entry the set of universal `Statistic` rows with that display
name is unchanged and each such row's triple keeps exactly its prior
`PerformanceStat` rows; for a blank sport-specific statistic its triple
likewise keeps exactly its prior rows. -/
theorem c4_selective_write (univ : List (String × String)) (a sp : Nat) (y : Int)
    (v : String → Option String) (db : DB) (hwf : WF db)
    (hnodup : (univ.map Prod.snd).Nodup) :
    (∀ e ∈ univ, blankVal (v e.1) →
      ustatsFor (applyAll univ a sp y v db) e.2 = ustatsFor db e.2 ∧
      ∀ st ∈ ustatsFor db e.2,
        recsFor (applyAll univ a sp y v db) a st.id y = recsFor db a st.id y) ∧
    (∀ d ∈ db.stats, d.sport = some sp → blankVal (v d.short_name) →
      recsFor (applyAll univ a sp y v db) a d.id y = recsFor db a d.id y) := by
  have hwf1 := wf_applyUniversal a y v univ db hwf
  obtain ⟨hnext, cs, hcs, hprop⟩ := statsExtend_applyUniversal a y v univ db
  have hstats : (applyAll univ a sp y v db).stats = (applyUniversal a y v univ db).stats := by
    rw [applyAll_eq]
    exact applySpecific_stats a y v _ _
  constructor
  · intro e he hblank
    constructor
    · rw [ustatsFor_congr hstats]
      unfold ustatsFor
      rw [hcs, List.filter_append]
      have hnil : cs.filter (fun s2 => s2.name == e.2 && s2.sport == none) = [] := by
        rw [List.filter_eq_nil_iff]
        intro c hc hpred
        simp only [Bool.and_eq_true, beq_iff_eq] at hpred
        have hcmem : c ∈ (applyUniversal a y v univ db).stats := by
          rw [hcs]
          exact List.mem_append_right _ hc
        rcases mem_stats_applyUniversal univ db hcmem with hcm |
          ⟨⟨e3, he3, s, hv3, hs3, hname3⟩, -, -⟩
        · obtain ⟨-, hge⟩ := hprop c hc
          exact absurd (hwf.2 c hcm) (by omega)
        · have hee : e3 = e := List.inj_on_of_nodup_map hnodup he3 he
            (by rw [← hname3]; exact hpred.1)
          rw [hee] at hv3
          rcases hblank with hb | hb
          · rw [hb] at hv3
            cases hv3
          · rw [hb] at hv3
            injection hv3 with h4
            exact hs3 h4.symm
      rw [hnil, List.append_nil]
    · intro st hstm
      have hstmem : st ∈ db.stats := List.mem_of_mem_filter hstm
      have hstpred := List.of_mem_filter hstm
      simp only [Bool.and_eq_true, beq_iff_eq] at hstpred
      have hstmem1 : st ∈ (applyUniversal a y v univ db).stats :=
        mem_stats_of_statsExtend ⟨hnext, cs, hcs, hprop⟩ hstmem
      have hcondS : ∀ st3 ∈ specificFor (applyUniversal a y v univ db) sp, ∀ s3,
          v st3.short_name = some s3 → s3 ≠ "" → ¬(a = a ∧ st.id = st3.id ∧ y = y) := by
        intro st3 hst3 s3 hv3 hs3 hc
        have h3 := mem_specificFor.mp hst3
        have heq : st = st3 := eq_of_mem_of_id_eq hwf1.1 hstmem1 h3.1 hc.2.1
        have hsp3 : st3.sport = none := by
          rw [← heq]
          exact hstpred.2
        rw [h3.2] at hsp3
        exact Option.noConfusion hsp3
      have hcondU : ∀ st' ∈ db.stats, st'.sport = none → st'.id = st.id →
          ∀ e3 ∈ univ, ∀ s3, v e3.1 = some s3 → s3 ≠ "" → st'.name ≠ e3.2 := by
        intro st' hst' hsp' hid' e3 he3 s3 hv3 hs3 hceq
        have heq : st' = st := eq_of_mem_of_id_eq hwf.1 hst' hstmem hid'
        have hee : e3 = e := List.inj_on_of_nodup_map hnodup he3 he
          (by rw [← hceq, heq]; exact hstpred.1)
        rw [hee] at hv3
        rcases hblank with hb | hb
        · rw [hb] at hv3
          cases hv3
        · rw [hb] at hv3
          injection hv3 with h4
          exact hs3 h4.symm
      have hF1 := recsFor_applySpecific_frame
        (specificFor (applyUniversal a y v univ db) sp) (applyUniversal a y v univ db) hcondS
      have hF2 := @recsFor_applyUniversal_frame a y v a st.id y univ db
        (hwf.2 st hstmem) hcondU
      rw [applyAll_eq]
      exact hF1.trans hF2
  · intro d hd hspd hblankd
    have hdmem1 : d ∈ (applyUniversal a y v univ db).stats :=
      mem_stats_of_statsExtend ⟨hnext, cs, hcs, hprop⟩ hd
    have hcondS : ∀ st3 ∈ specificFor (applyUniversal a y v univ db) sp, ∀ s3,
        v st3.short_name = some s3 → s3 ≠ "" → ¬(a = a ∧ d.id = st3.id ∧ y = y) := by
      intro st3 hst3 s3 hv3 hs3 hc
      have h3 := mem_specificFor.mp hst3
      have heq : d = st3 := eq_of_mem_of_id_eq hwf1.1 hdmem1 h3.1 hc.2.1
      rw [← heq] at hv3
      rcases hblankd with hb | hb
      · rw [hb] at hv3
        cases hv3
      · rw [hb] at hv3
        injection hv3 with h4
        exact hs3 h4.symm
    have hcondU : ∀ st' ∈ db.stats, st'.sport = none → st'.id = d.id →
        ∀ e3 ∈ univ, ∀ s3, v e3.1 = some s3 → s3 ≠ "" → st'.name ≠ e3.2 := by
      intro st' hst' hsp' hid' e3 he3 s3 hv3 hs3 hceq
      have heq : st' = d := eq_of_mem_of_id_eq hwf.1 hst' hd hid'
      rw [heq, hspd] at hsp'
      exact Option.noConfusion hsp'
    have hF1 := recsFor_applySpecific_frame
      (specificFor (applyUniversal a y v univ db) sp) (applyUniversal a y v univ db) hcondS
    have hF2 := @recsFor_applyUniversal_frame a y v a d.id y univ db
      (hwf.2 d hd) hcondU
    rw [applyAll_eq]
    exact hF1.trans hF2

/-- Closed instance of C4: a submission filling only `pts` leaves the
existing Goals record (blank key `goals`) exactly as it was. -/
theorem c4_witness :
    WF (⟨[⟨0, "Goals", "goals", some 3⟩], [⟨1, 0, 2024, "2"⟩], 1⟩ : DB) ∧
    recsFor (applyAll [("pts", "Points")] 1 3 2024
        (fun k => if k = "pts" then some "10" else none)
        ⟨[⟨0, "Goals", "goals", some 3⟩], [⟨1, 0, 2024, "2"⟩], 1⟩) 1 0 2024 =
      recsFor (⟨[⟨0, "Goals", "goals", some 3⟩], [⟨1, 0, 2024, "2"⟩], 1⟩ : DB) 1 0 2024 :=
  ⟨by decide,
   (c4_selective_write [("pts", "Points")] 1 3 2024
      (fun k => if k = "pts" then some "10" else none)
      ⟨[⟨0, "Goals", "goals", some 3⟩], [⟨1, 0, 2024, "2"⟩], 1⟩ (by decide) (by decide)).2
     ⟨0, "Goals", "goals", some 3⟩ (by simp) rfl (Or.inl rfl)⟩

/-- Claim C2: the upsert engine is idempotent.  Applying the same
`(athlete, year, values)` submission twice to a well-formed store yields
exactly the state of applying it once: no duplicate rows per
(athlete, statistic, year) triple and the same final values. -/
theorem c2_upsert_idempotent (univ : List (String × String)) (a sp : Nat) (y : Int)
    (v : String → Option String) (db : DB) (hwf : WF db) (huniq : UStatUnique db)
    (hamo : AtMostOne db) (hnodup : (univ.map Prod.snd).Nodup) :
    applyAll univ a sp y v (applyAll univ a sp y v db) = applyAll univ a sp y v db :=
  applyAll_idem univ a sp y v db hwf huniq hamo hnodup

/-- Closed instance of C2 starting from the empty store. -/
theorem c2_witness :
    applyAll [("pts", "Points")] 1 3 2024
        (fun k => if k = "pts" then some "10" else none)
        (applyAll [("pts", "Points")] 1 3 2024
          (fun k => if k = "pts" then some "10" else none) ⟨[], [], 0⟩) =
      applyAll [("pts", "Points")] 1 3 2024
        (fun k => if k = "pts" then some "10" else none) ⟨[], [], 0⟩ :=
  c2_upsert_idempotent [("pts", "Points")] 1 3 2024
    (fun k => if k = "pts" then some "10" else none) ⟨[], [], 0⟩
    (by decide) (by decide) (by decide) (by decide)

/-- Claim C1, refuted by the code: the upsert sequence is not an
all-or-nothing unit.  With an empty store, two filled universal fields, and
a storage error on the second `PerformanceStat` write, the view (which runs
without `transaction.atomic()`, under per-write autocommit) has already
committed the first performance row and both created `Statistic` rows when
the error propagates — the state is not unchanged on error, contradicting
the spec's §5 requirement that no partial set of records be committed. -/
theorem c1_upsert_not_atomic :
    (applyAllF (some 1) c1Univ 1 7 2024 c1Values c1Db).2 = false ∧
    (applyAllF (some 1) c1Univ 1 7 2024 c1Values c1Db).1.perf = [⟨1, 0, 2024, "10"⟩] ∧
    (applyAllF (some 1) c1Univ 1 7 2024 c1Values c1Db).1.stats =
      [⟨0, "Points", "pts", none⟩, ⟨1, "Rebounds", "reb", none⟩] ∧
    (applyAllF (some 1) c1Univ 1 7 2024 c1Values c1Db).1 ≠ c1Db := by
  refine ⟨rfl, by decide, by decide, by decide⟩

end AthletiTrack
